import Mathlib

/-!
Verification development for the client-side response-interpretation pipeline
in `static/js/app.js` (marketing video agent frontend).

The JavaScript source is shallowly embedded: strings are modelled as lists of
Unicode scalar values (Lean `Char`), JavaScript regular expressions are given
an explicit AST (`RE`) together with a fuel-bounded backtracking matcher that
mirrors ECMAScript matching order (leftmost match, greedy/lazy quantifiers,
left-preferring alternation, lookahead), and the stateful gallery code is
modelled by explicit state passing.

Known, deliberate modelling deviations from the JavaScript engine, none of
which affect the theorems below:
  * JS strings are UTF-16 code-unit sequences; we use Unicode scalars.  This
    changes index arithmetic only for astral characters (emoji), and changes
    the content of an extracted one-code-unit "icon" capture (a lone
    surrogate in JS, a whole scalar here); no claim inspects icon contents.
  * Capture groups set inside a lookahead would persist in JS; none of the
    source regexes capture inside a lookahead.
  * After a global regex matches the empty string JS bumps `lastIndex`; all
    source regexes used globally only match non-empty strings.
-/

set_option maxRecDepth 40000

namespace MVA

/-- JS `\s` white-space class (the common members). -/
def isSpaceJS (c : Char) : Bool :=
  c = ' ' || c = '\t' || c = '\n' || c = '\r' || c = '\x0b' || c = '\x0c' ||
  c = '\u00A0' || c = '\uFEFF'

def isDigitC (c : Char) : Bool := '0' ≤ c && c ≤ '9'

def isWordC (c : Char) : Bool :=
  ('a' ≤ c && c ≤ 'z') || ('A' ≤ c && c ≤ 'Z') || isDigitC c || c = '_'

/-- JS `String.prototype.toLowerCase`, restricted to simple case mapping. -/
def jsLower (c : Char) : Char := c.toLower

def jsUpper (c : Char) : Char := c.toUpper

def lowerStr (s : String) : String := String.mk (s.data.map jsLower)

/-- One item of a regex character class. -/
inductive CCls where
  | ch (c : Char)
  | range (lo hi : Char)
  | space
  | digit
  | word
deriving DecidableEq, Repr

def cclsMem (ci : Bool) (c : Char) : CCls → Bool
  | .ch d => if ci then jsLower c = jsLower d else c = d
  | .range lo hi =>
      (lo ≤ c && c ≤ hi) ||
      (ci && ((lo ≤ jsLower c && jsLower c ≤ hi) || (lo ≤ jsUpper c && jsUpper c ≤ hi)))
  | .space => isSpaceJS c
  | .digit => isDigitC c
  | .word => isWordC c

def clsMem (ci : Bool) (neg : Bool) (items : List CCls) (c : Char) : Bool :=
  let m := items.any (cclsMem ci c)
  if neg then !m else m

/-- Regex AST covering the constructs used by the source patterns. -/
inductive RE where
  | eps
  | lit (c : Char)
  | cls (neg : Bool) (items : List CCls)
  | cat (a b : RE)
  | alt (a b : RE)
  | rep (r : RE) (lo : Nat) (hi : Option Nat) (lazy : Bool)
  | grp (i : Nat) (r : RE)
  | look (r : RE)
  | bol
  | eol
deriving Repr

structure RFlags where
  ci : Bool
  ml : Bool
deriving Repr

abbrev Caps := List (Nat × List Char)

def setCap (i : Nat) (v : List Char) (caps : Caps) : Caps :=
  (i, v) :: caps.filter (fun p => p.1 ≠ i)

def getCap (i : Nat) (caps : Caps) : Option (List Char) :=
  (caps.find? (fun p => p.1 = i)).map (fun p => p.2)

abbrev MK := List Char → Option Char → Caps → Option (List Char × Caps)

def litOk (ci : Bool) (c d : Char) : Bool :=
  if ci then jsLower d = jsLower c else d = c

def bolOk (fl : RFlags) (prev : Option Char) : Bool :=
  match prev with
  | none => true
  | some c => fl.ml && c = '\n'

def eolOk (fl : RFlags) (cs : List Char) : Bool :=
  match cs with
  | [] => true
  | c :: _ => fl.ml && c = '\n'

def hiPos : Option Nat → Bool
  | none => true
  | some h => 0 < h

def hiDec : Option Nat → Option Nat
  | none => none
  | some h => some (h - 1)

/-- Fuel-bounded backtracking matcher in continuation-passing style.
Backtracking order mirrors ECMAScript: alternation prefers the left branch,
greedy repetition prefers to iterate, lazy repetition prefers not to. -/
def mtch (fl : RFlags) : Nat → RE → List Char → Option Char → Caps → MK →
    Option (List Char × Caps)
  | 0, _, _, _, _, _ => none
  | f + 1, re, cs, prev, caps, k =>
    match re with
    | .eps => k cs prev caps
    | .lit c =>
      match cs with
      | [] => none
      | d :: t => if litOk fl.ci c d then k t (some d) caps else none
    | .cls neg items =>
      match cs with
      | [] => none
      | d :: t => if clsMem fl.ci neg items d then k t (some d) caps else none
    | .cat a b =>
      mtch fl f a cs prev caps (fun cs2 p2 caps2 => mtch fl f b cs2 p2 caps2 k)
    | .alt a b =>
      match mtch fl f a cs prev caps k with
      | some out => some out
      | none => mtch fl f b cs prev caps k
    | .rep r lo hi lz =>
      if lo > 0 then
        if hiPos hi then
          mtch fl f r cs prev caps (fun cs2 p2 caps2 =>
            mtch fl f (.rep r (lo - 1) (hiDec hi) lz) cs2 p2 caps2 k)
        else none
      else if lz then
        match k cs prev caps with
        | some out => some out
        | none =>
          if hiPos hi then
            mtch fl f r cs prev caps (fun cs2 p2 caps2 =>
              if cs2.length = cs.length then none
              else mtch fl f (.rep r 0 (hiDec hi) lz) cs2 p2 caps2 k)
          else none
      else
        match (if hiPos hi then
                mtch fl f r cs prev caps (fun cs2 p2 caps2 =>
                  if cs2.length = cs.length then none
                  else mtch fl f (.rep r 0 (hiDec hi) lz) cs2 p2 caps2 k)
               else none) with
        | some out => some out
        | none => k cs prev caps
    | .grp i r =>
      mtch fl f r cs prev caps (fun cs2 p2 caps2 =>
        k cs2 p2 (setCap i (cs.take (cs.length - cs2.length)) caps2))
    | .look r =>
      match mtch fl f r cs prev caps (fun cs2 _ caps2 => some (cs2, caps2)) with
      | some _ => k cs prev caps
      | none => none
    | .bol => if bolOk fl prev then k cs prev caps else none
    | .eol => if eolOk fl cs then k cs prev caps else none

/-- Result of one regex match: start index, matched text, capture groups. -/
structure MatchRes where
  idx : Nat
  matched : List Char
  caps : Caps
deriving Repr

/-- Fuel sufficient for the matcher on an input of length `n`. -/
def mfuel (n : Nat) : Nat := (n + 2) * 120 + 2000

def tryAt (fl : RFlags) (fuel : Nat) (re : RE) (cs : List Char) (prev : Option Char) :
    Option (List Char × Caps) :=
  mtch fl fuel re cs prev [] (fun rest _ caps => some (rest, caps))

/-- Scan for the leftmost match, starting at absolute index `i`. -/
def searchAux (fl : RFlags) (fuel : Nat) (re : RE) :
    List Char → Option Char → Nat → Option MatchRes
  | cs, prev, i =>
    match tryAt fl fuel re cs prev with
    | some (rest, caps) => some ⟨i, cs.take (cs.length - rest.length), caps⟩
    | none =>
      match cs with
      | [] => none
      | c :: t => searchAux fl fuel re t (some c) (i + 1)

/-- First match of `re` in `cs` (JS `String.prototype.match` without `g`,
or a single `exec`). -/
def matchFirst (fl : RFlags) (re : RE) (cs : List Char) : Option MatchRes :=
  searchAux fl (mfuel cs.length) re cs none 0

/-- All matches of a global regex, in order (JS repeated `exec` / `match` with
`g`). -/
def execAllAux (fl : RFlags) (fuel : Nat) (re : RE) :
    Nat → List Char → Option Char → Nat → List MatchRes
  | 0, _, _, _ => []
  | g + 1, cs, prev, i =>
    match searchAux fl fuel re cs prev i with
    | none => []
    | some m =>
      let rel := m.idx - i
      let step := if m.matched.length = 0 then rel + 1 else rel + m.matched.length
      let dropped := cs.take step
      let prev2 := match dropped.getLast? with
        | some c => some c
        | none => prev
      m :: execAllAux fl fuel re g (cs.drop step) prev2 (i + step)

def execAll (fl : RFlags) (re : RE) (cs : List Char) : List MatchRes :=
  execAllAux fl (mfuel cs.length) re (cs.length + 1) cs none 0

/-- JS `String.prototype.match` with the `g` flag: the list of matched
substrings (`[]` plays the role of JS `null`). -/
def matchAllStrings (fl : RFlags) (re : RE) (cs : List Char) : List (List Char) :=
  (execAll fl re cs).map (fun m => m.matched)

/-- JS `test` / truthiness of `match` without `g`. -/
def testRe (fl : RFlags) (re : RE) (cs : List Char) : Bool :=
  (matchFirst fl re cs).isSome

/-- JS `String.prototype.replace` with a global regex and a literal
replacement. -/
def replaceAllAux (fl : RFlags) (fuel : Nat) (re : RE) (repl : List Char) :
    Nat → Option Char → List Char → List Char
  | 0, _, cs => cs
  | g + 1, prev, cs =>
    match searchAux fl fuel re cs prev 0 with
    | none => cs
    | some m =>
      let endPos := m.idx + m.matched.length
      let before := cs.take m.idx
      let rest := cs.drop endPos
      let prev2 := match (cs.take endPos).getLast? with
        | some c => some c
        | none => prev
      if m.matched.isEmpty then
        match rest with
        | [] => before ++ repl
        | c :: t => before ++ repl ++ [c] ++ replaceAllAux fl fuel re repl g (some c) t
      else
        before ++ repl ++ replaceAllAux fl fuel re repl g prev2 rest

def replaceAll (fl : RFlags) (re : RE) (repl : List Char) (cs : List Char) : List Char :=
  replaceAllAux fl (mfuel cs.length) re repl (cs.length + 1) none cs

/-- JS `String.prototype.replace` with a non-global regex. -/
def replaceFirst (fl : RFlags) (re : RE) (repl : List Char) (cs : List Char) : List Char :=
  match matchFirst fl re cs with
  | none => cs
  | some m => cs.take m.idx ++ repl ++ cs.drop (m.idx + m.matched.length)

def splitGo (pos : Nat) (rem : List Char) : List MatchRes → List (List Char)
  | [] => [rem]
  | m :: rest =>
    (rem.take (m.idx - pos)) ::
      splitGo (m.idx + m.matched.length) (rem.drop (m.idx + m.matched.length - pos)) rest

/-- JS `String.prototype.split` with a regex separator (no capture groups). -/
def splitByRe (fl : RFlags) (re : RE) (cs : List Char) : List (List Char) :=
  splitGo 0 cs (execAll fl re cs)

/-! ## String helpers (JS built-ins) -/

/-- JS `String.prototype.trim`. -/
def jsTrim (cs : List Char) : List Char :=
  ((cs.dropWhile isSpaceJS).reverse.dropWhile isSpaceJS).reverse

def containsSub (hay needle : List Char) : Bool :=
  match hay with
  | [] => needle.isEmpty
  | _ :: t => needle.isPrefixOf hay || containsSub t needle

def endsWithC (hay suffix2 : List Char) : Bool :=
  suffix2.reverse.isPrefixOf hay.reverse

/-- Prepend a leading slash when missing
(`path.startsWith('/') ? path : '/' + path`). -/
def ensureSlash (p : List Char) : List Char :=
  match p with
  | '/' :: _ => p
  | _ => '/' :: p

/-- Capture group `i` of a match, `""` when absent. -/
def grpStr (m : MatchRes) (i : Nat) : List Char :=
  (getCap i m.caps).getD []

/-! ## Regex construction helpers -/

def rcats : List RE → RE
  | [] => RE.eps
  | [r] => r
  | r :: rs => RE.cat r (rcats rs)

def ralts : List RE → RE
  | [] => RE.eps
  | [r] => r
  | r :: rs => RE.alt r (ralts rs)

def rstr (s : String) : RE := rcats (s.data.map RE.lit)

def ropt (r : RE) : RE := RE.rep r 0 (some 1) false

def rstar (r : RE) : RE := RE.rep r 0 none false

def rstarL (r : RE) : RE := RE.rep r 0 none true

def rplus (r : RE) : RE := RE.rep r 1 none false

/-- Source: `\s` -/
def wsRE : RE := RE.cls false [CCls.space]

def wsStar : RE := rstar wsRE

/-- Source: `[\s\S]` -/
def anyRE : RE := RE.cls true []

/-- Source: `[^\n]` -/
def nonNl : RE := RE.cls true [CCls.ch '\n']

/-- Source: `\d` -/
def digRE : RE := RE.cls false [CCls.digit]

/-- Source: `.` without the `s` flag (any char but a line terminator). -/
def dotRE : RE := RE.cls true [CCls.ch '\n', CCls.ch '\r', CCls.ch '\u2028', CCls.ch '\u2029']

def clsOf (l : List Char) : RE := RE.cls false (l.map CCls.ch)

def nclsOf (l : List Char) : RE := RE.cls true (l.map CCls.ch)

def azAZ : List CCls := [CCls.range 'a' 'z', CCls.range 'A' 'Z']

def azAZ09u : List CCls :=
  [CCls.range 'a' 'z', CCls.range 'A' 'Z', CCls.range '0' '9', CCls.ch '_']

def azAZ09ud : List CCls :=
  [CCls.range 'a' 'z', CCls.range 'A' 'Z', CCls.range '0' '9', CCls.ch '_', CCls.ch '-']

/-- No flags (a possible `g` flag is handled by the calling API). -/
def fN : RFlags := ⟨false, false⟩

/-- The `i` flag. -/
def fI : RFlags := ⟨true, false⟩

/-- The `m` flag. -/
def fM : RFlags := ⟨false, true⟩

/-! ## The source regexes, transcribed from static/js/app.js

Group numbering follows the JS capture-group numbering.  `'\x27'` is an
apostrophe, `'\x60'` a backtick, `'\x7b'`/`'\x7d'` braces. -/

/-- Chars of the class `[^\s\)\"\'\x60<>\n]` (used in several paths). -/
def pathStopNl : List CCls :=
  [CCls.space, CCls.ch ')', CCls.ch '"', CCls.ch '\x27', CCls.ch '\x60',
   CCls.ch '<', CCls.ch '>', CCls.ch '\n']

/-- Source: `#[a-zA-Z][a-zA-Z0-9_]*` (app.js:2463, 2546, 2570, 2654, 2676, 2698). -/
def hashtagRE : RE :=
  rcats [RE.lit '#', RE.cls false azAZ, rstar (RE.cls false azAZ09u)]

/-- Source: `campaignPostPattern` (app.js:2535, flags `gi`). -/
def campaignPostRE : RE :=
  rcats [ropt (RE.cat (RE.lit '✅') wsStar), rstr "Post", wsStar, rplus digRE, wsStar,
    ropt (rcats [rstr "of", wsStar, rplus digRE]), wsStar, rstr "Created",
    ropt (RE.lit '!'), wsStar, rplus (RE.lit '\n'),
    ropt (RE.cat (RE.lit '📷') wsStar), ropt (rstr "**"), rstr "Image", ropt (rstr "**"),
    ropt (RE.lit ':'), wsStar, RE.rep nonNl 0 none true,
    RE.grp 1 (rcats [rstr "/generated/", rplus (RE.cls true pathStopNl), rstr ".png"]),
    RE.rep anyRE 0 none true,
    RE.alt (rstr "Caption") (rcats [RE.lit '📝', wsStar, rstr "Caption"]),
    ropt (RE.lit ':'), wsStar, RE.lit '\n',
    RE.grp 2 (RE.rep anyRE 0 none true),
    RE.look (ralts [rstr "Hashtags:", rstr "#️⃣", rstr "Full Post", rstr "---",
      rstr "\n\n✅", rstr "\n\n📷", RE.eol])]

/-- Carousel shared-caption regex (app.js:2566, flag `i`). -/
def carouselCaptionRE : RE :=
  rcats [ropt (RE.cat (RE.lit '📝') wsStar), ropt (rstr "**"), rstr "Caption",
    ropt (rstr "**"), ropt (RE.lit ':'), wsStar, ropt (RE.lit '\n'),
    RE.grp 1 (RE.rep anyRE 0 none true),
    RE.look (ralts [
      rcats [RE.alt (rstr "#️⃣") (rstr "📌"), wsStar, ropt (rstr "**"), rstr "Hashtags"],
      rstr "\n---", rstr "\n\n**What", RE.eol])]

/-- Carousel image pattern 0 (app.js:2578): `\[📷[^\]]*\]\((\/generated\/[^\)]+\.png)\)`. -/
def carImgRE0 : RE :=
  rcats [RE.lit '[', RE.lit '📷', rstar (nclsOf [']']), RE.lit ']', RE.lit '(',
    RE.grp 1 (rcats [rstr "/generated/", rplus (nclsOf [')']), rstr ".png"]), RE.lit ')']

/-- Carousel image pattern 1 (app.js:2579): `\|\s*(\/generated\/[^\|\s\n]+\.png)\s*\|`. -/
def carImgRE1 : RE :=
  rcats [RE.lit '|', wsStar,
    RE.grp 1 (rcats [rstr "/generated/",
      rplus (RE.cls true [CCls.ch '|', CCls.space, CCls.ch '\n']), rstr ".png"]),
    wsStar, RE.lit '|']

/-- Carousel image pattern 2 (app.js:2580). -/
def carImgRE2 : RE :=
  rcats [RE.lit '|', wsStar, ropt (RE.lit '['), ropt (RE.lit '📷'),
    rstar (nclsOf [']']), ropt (RE.lit ']'), ropt (RE.lit '('),
    RE.grp 1 (rcats [rstr "/generated/",
      rplus (RE.cls true [CCls.ch ')', CCls.ch '|', CCls.space]), rstr ".png"]),
    ropt (RE.lit ')')]

/-- Carousel image pattern 3 (app.js:2581). -/
def carImgRE3 : RE :=
  rcats [ropt (RE.cat (RE.lit '📸') wsStar), ropt (rstr "**"), rstr "Image",
    ropt (rstr "**"), ropt (RE.lit ':'), wsStar,
    ropt (rcats [RE.lit '[', RE.lit '📷', rstar (nclsOf [']']), RE.lit ']', RE.lit '(']),
    RE.grp 1 (rcats [rstr "/generated/",
      rplus (RE.cls true [CCls.space, CCls.ch ')', CCls.ch '\n']), rstr ".png"]),
    ropt (RE.lit ')')]

/-- Carousel image pattern 4 (app.js:2582): `(\/generated\/post_[a-zA-Z0-9_]+\.png)`. -/
def carImgRE4 : RE :=
  RE.grp 1 (rcats [rstr "/generated/post_", rplus (RE.cls false azAZ09u), rstr ".png"])

/-- Source: `carouselSlidePattern` (app.js:2616, flags `gi`). -/
def carouselSlideRE : RE :=
  rcats [ropt (RE.cat (RE.lit '🎉') wsStar), rstr "Slide", wsStar,
    RE.grp 1 (rplus digRE), wsStar, rstr "of", wsStar, RE.grp 2 (rplus digRE),
    ropt (RE.lit ':'), wsStar, rstar nonNl, rplus (RE.lit '\n'),
    ropt (RE.cat (RE.lit '📸') wsStar), ropt (rstr "**"), rstr "Image", ropt (rstr "**"),
    ropt (RE.lit ':'), wsStar,
    ropt (rcats [RE.lit '[', RE.lit '📷', rstar (nclsOf [']']), RE.lit ']', RE.lit '(']),
    RE.grp 3 (rcats [rplus (RE.cls true pathStopNl), rstr ".png"]),
    ropt (RE.lit ')')]

/-- Source: `This slide[^\n]*` (app.js:2626, flag `i`). -/
def thisSlideRE : RE := rcats [rstr "This slide", rstar nonNl]

/-- Source: `structuredPattern` (app.js:2646, flags `gi`). -/
def structuredRE : RE :=
  rcats [rstr "**", ropt (RE.cat (RE.lit '📸') wsStar), rstr "Image", ropt (RE.lit ':'),
    rstr "**", wsStar,
    RE.grp 1 (rcats [rstr "/generated/",
      rplus (RE.cls true [CCls.space, CCls.ch '\n']), rstr ".png"]),
    RE.rep anyRE 0 none true,
    rstr "**", ropt (RE.cat (RE.lit '📝') wsStar), rstr "Caption", ropt (RE.lit ':'),
    rstr "**", wsStar, ropt (RE.lit '\n'),
    RE.grp 2 (RE.rep anyRE 0 none true),
    RE.look (ralts [
      RE.cat (rstr "**") (RE.alt (rstr "#️⃣") (rstr "Hashtags")),
      rcats [rstr "#️⃣", wsStar, ropt (rstr "**"), rstr "Hashtags"],
      rstr "\n---", rstr "\n**What", rstr "\n\nOptions:"])]

/-- Source: `singlePostPattern` (app.js:2668, flags `gi`). -/
def singlePostRE : RE :=
  rcats [ralts [rcats [rstr "Here", RE.lit '\x27', rstr "s your"],
      rstr "Here is your", rstr "Your"],
    RE.rep nonNl 0 none true, RE.alt (rstr "post") (rstr "image"), rstar nonNl,
    rplus (RE.lit '\n'),
    ropt (RE.cat (RE.lit '📷') wsStar), ropt (rstr "**"), rstr "Image", ropt (rstr "**"),
    ropt (RE.lit ':'), wsStar, RE.rep nonNl 0 none true,
    RE.grp 1 (rcats [rstr "/generated/", rplus (RE.cls true pathStopNl), rstr ".png"]),
    RE.rep anyRE 0 none true,
    RE.alt (rstr "Caption") (rcats [RE.lit '📝', wsStar, rstr "Caption"]),
    ropt (RE.lit ':'), wsStar, RE.lit '\n',
    RE.grp 2 (RE.rep anyRE 0 none true),
    RE.look (ralts [rstr "Hashtags:", rstr "#️⃣", rstr "Full Post", rstr "---",
      rstr "\n\n**What", RE.eol])]

/-- Source: `genericPattern` (app.js:2690, flags `gi`). -/
def genericRE : RE :=
  rcats [
    RE.grp 1 (rcats [rstr "/generated/", rplus (RE.cls true pathStopNl), rstr ".png"]),
    RE.rep anyRE 0 (some 200) true,
    RE.alt (rstr "Caption") (RE.lit '📝'), ropt (RE.lit ':'), wsStar, RE.lit '\n',
    RE.grp 2 (RE.rep anyRE 0 none true),
    RE.look (ralts [rstr "Hashtags:", rstr "#️⃣", rstr "Full Post", rstr "---",
      rstr "\n\n\n", RE.eol])]

/-- The nine fallback image patterns (app.js:2409-2417), in order. -/
def fallbackREs : List (RFlags × RE) :=
  [(fI, rcats [rstr "**", ropt (RE.cat (RE.lit '📸') wsStar), rstr "Image:**", wsStar,
      RE.grp 1 (rcats [rstr "/generated/",
        rplus (RE.cls true [CCls.space, CCls.ch '\n']), rstr ".png"])]),
   (fI, rcats [RE.lit '📸', wsStar, rstr "Image:", wsStar,
      RE.grp 1 (rcats [rstr "/generated/",
        rplus (RE.cls true [CCls.space, CCls.ch '\n']), rstr ".png"])]),
   (fI, rcats [rstr "Image:", wsStar,
      RE.grp 1 (rcats [rstr "/generated/",
        rplus (RE.cls true [CCls.space, CCls.ch '\n']), rstr ".png"])]),
   (fI, rcats [RE.lit '[', RE.lit '📷', rstar (nclsOf [']']), RE.lit ']', RE.lit '(',
      RE.grp 1 (rcats [rstr "/generated/", rplus (nclsOf [')']), rstr ".png"]),
      RE.lit ')']),
   (fI, rcats [RE.lit '[', rstar (nclsOf [']']), RE.lit ']', RE.lit '(',
      RE.grp 1 (rcats [rstr "/generated/", rplus (nclsOf [')']), rstr ".png"]),
      RE.lit ')']),
   (fN, rcats [rstr "/generated/post_", rplus (RE.cls false azAZ09u), rstr ".png"]),
   (fN, rcats [rstr "/generated/", rplus (RE.cls false azAZ09ud), rstr ".png"]),
   (fN, rcats [rstr "generated/", rplus (RE.cls false azAZ09ud), rstr ".png"]),
   (fN, rcats [RE.lit '(', rstr "/generated/", rplus (nclsOf [')']), rstr ".png",
      RE.lit ')'])]

/-- Source: `/\*\*Image:\*\*\s*/gi` (app.js:2426). -/
def cleanImageLabelRE : RE := rcats [rstr "**Image:**", wsStar]

/-- Source: `/[\(\)]/g` (app.js:2426). -/
def parensRE : RE := clsOf ['(', ')']

/-- First caption fallback pattern (app.js:2451, flag `i`). -/
def captionFallbackRE0 : RE :=
  rcats [ropt (rstr "**"), ropt (RE.cat (RE.lit '📝') wsStar), rstr "Caption",
    ropt (rstr "**"), ropt (RE.lit ':'), wsStar, ropt (RE.lit '\n'),
    RE.grp 1 (RE.rep anyRE 0 none true),
    RE.look (ralts [rstr "#️⃣", rstr "Hashtags:", rstr "---", rstr "\n\n**What",
      rstr "\n\nOptions:", RE.eol])]

/-- Second caption fallback pattern (app.js:2452, flag `i`). -/
def captionFallbackRE1 : RE :=
  rcats [ropt (RE.cat (RE.lit '📝') wsStar), rstr "Caption", ropt (RE.lit ':'), wsStar,
    RE.lit '\n',
    RE.grp 1 (RE.rep anyRE 0 none true),
    RE.look (ralts [rstr "\n\n#️⃣",
      rcats [RE.lit '\n', RE.lit '\n', rstar dotRE, rstr "Hashtags"],
      rstr "\n---", rstr "\n\n**What", rstr "\n\nOptions:", RE.eol])]

/-- Source: `videoPattern` (app.js:2478, flags `gi`). -/
def videoRE : RE :=
  rcats [ropt (RE.lit '/'), rstr "generated/",
    rplus (RE.cls true [CCls.space, CCls.ch ')', CCls.ch '"', CCls.ch '\x27',
      CCls.ch '\x60', CCls.ch '<', CCls.ch '>']),
    RE.lit '.', RE.grp 1 (ralts [rstr "mp4", rstr "webm", rstr "mov"])]

/-- Source: `/\.(png|jpg|jpeg)$/i` (app.js:2493). -/
def stillImageEndRE : RE :=
  rcats [RE.lit '.', RE.grp 1 (ralts [rstr "png", rstr "jpg", rstr "jpeg"]), RE.eol]

/-- Source: `/^\*\*[^*]*\*\*\s*/g` (app.js:3482). -/
def sanMdRE : RE := rcats [RE.bol, rstr "**", rstar (nclsOf ['*']), rstr "**", wsStar]

/-- Source: `/^📸\s*Image:\s*/gi` (app.js:3483). -/
def sanEmojiImageRE : RE := rcats [RE.bol, RE.lit '📸', wsStar, rstr "Image:", wsStar]

/-- Source: `/^Image:\s*/gi` (app.js:3484). -/
def sanImageRE : RE := rcats [RE.bol, rstr "Image:", wsStar]

/-- Source: `/\[([^\]]*)\]\(([^)]+)\)/` (app.js:3487). -/
def sanLinkRE : RE :=
  rcats [RE.lit '[', RE.grp 1 (rstar (nclsOf [']'])), RE.lit ']', RE.lit '(',
    RE.grp 2 (rplus (nclsOf [')'])), RE.lit ')']

def mediaExtAlts : RE :=
  ralts [rstr "png", rstr "jpg", rstr "jpeg", rstr "gif", rstr "webp",
    rstr "mp4", rstr "webm", rstr "mov"]

/-- Source: `/(\/generated\/[a-zA-Z0-9_-]+\.(?:png|jpg|jpeg|gif|webp|mp4|webm|mov))/i`
(app.js:3495). -/
def sanGenRE : RE :=
  RE.grp 1 (rcats [rstr "/generated/", rplus (RE.cls false azAZ09ud), RE.lit '.',
    mediaExtAlts])

/-- Source: `/\.(png|jpg|jpeg|gif|webp|mp4|webm|mov)$/i` (app.js:3502). -/
def sanExtEndRE : RE := rcats [RE.lit '.', RE.grp 1 mediaExtAlts, RE.eol]

/-- Source: `jsonPattern` (app.js:3682, flags `gs`). -/
def jsonSimpleRE : RE :=
  rcats [RE.lit '\x7b', rstar (nclsOf ['\x7b', '\x7d']),
    rstr "\"text\"", wsStar, RE.lit ':', wsStar,
    RE.lit '"', rstar (nclsOf ['"']), RE.lit '"',
    rstar (nclsOf ['\x7b', '\x7d']),
    rstr "\"has_choices\"", wsStar, RE.lit ':', wsStar,
    RE.grp 1 (RE.alt (rstr "true") (rstr "false")),
    rstar (nclsOf ['\x7b', '\x7d']), RE.lit '\x7d']

/-- Source: `complexJsonPattern` (app.js:3700, flag `g`). -/
def jsonComplexRE : RE :=
  rcats [RE.lit '\x7b', RE.rep anyRE 0 none true,
    rstr "\"text\"", wsStar, RE.lit ':', wsStar,
    RE.lit '"', RE.rep anyRE 0 none true, RE.lit '"',
    RE.rep anyRE 0 none true,
    rstr "\"choices\"", wsStar, RE.lit ':', wsStar,
    RE.lit '[', RE.rep anyRE 0 none true, RE.lit ']',
    RE.rep anyRE 0 none true, RE.lit '\x7d']

/-- Source: `/\*\*/g` (caption clean-up at several sites). -/
def boldRE : RE := rstr "**"

/-- Source: `/^\s*\n/gm` (caption clean-up; note the `m` flag). -/
def leadBlankLineRE : RE := rcats [RE.bol, wsStar, RE.lit '\n']

/-- Source: `/\n/g` (app.js:3707). -/
def nlRE : RE := RE.lit '\n'

/-- The `emojiSet` class characters (app.js:3878); variation selectors appear
as separate class members exactly as in the JS source string. -/
def emojiChars : List Char := "📸📅🖼️✨🎬✏️🔄✅❌👍👎📊📝🚀💡🎯🎨📱💼🔥⭐".data

def emojiCls : RE := clsOf emojiChars

/-- Source: `emojiOutsidePattern` (app.js:3881, flag `g`). -/
def emojiOutsideRE : RE :=
  rcats [RE.grp 1 emojiCls, wsStar, rstr "**", RE.grp 2 (rplus (nclsOf ['*'])),
    rstr "**", wsStar, clsOf ['-', '–', '—', ':'], wsStar, RE.grp 3 (rplus nonNl)]

/-- Source: `emojiInsidePattern` (app.js:3900, flag `g`). -/
def emojiInsideRE : RE :=
  rcats [rstr "**", RE.grp 1 (rcats [emojiCls, wsStar, rplus (nclsOf ['*'])]),
    rstr "**", wsStar, clsOf ['-', '–', '—', ':'], wsStar,
    RE.grp 2 (rplus (nclsOf ['\n', '*']))]

/-- Source: `^([emojiSet])` (app.js:3904). -/
def iconHeadRE : RE := RE.cat RE.bol (RE.grp 1 emojiCls)

/-- Source: `^[emojiSet]\s*` (app.js:3906). -/
def iconStripRE : RE := rcats [RE.bol, emojiCls, wsStar]

/-- Source: `inlinePattern` (app.js:3920, flag `g`). -/
def inlineChoiceRE : RE :=
  rcats [RE.lit '(',
    RE.grp 1 (rcats [rplus (nclsOf [')']),
      rplus (rcats [wsStar, RE.lit '/', wsStar, rplus (nclsOf [')'])])]),
    RE.lit ')']

/-- Source: `/\s*\/\s*/` separator used by `split` (app.js:3923). -/
def slashSepRE : RE := rcats [wsStar, RE.lit '/', wsStar]

/-- Source: `bulletOptionsPattern` (app.js:3943, flags `gi`). -/
def bulletOptionsRE : RE :=
  rcats [ralts [rstr "would you like to", rstr "want to", rstr "options", rstr "you can"],
    ropt (clsOf [':', '.']), wsStar, RE.lit '\n',
    RE.grp 1 (rplus (rcats [wsStar, clsOf ['-', '•', '*'], wsStar, rplus nonNl,
      ropt (RE.lit '\n')]))]

/-- Source: `bulletPattern` (app.js:3946, flag `g`). -/
def bulletRE : RE :=
  rcats [clsOf ['-', '•', '*'], wsStar, ropt (RE.lit '*'), ropt (RE.lit '*'),
    ropt (clsOf ['"', '\x27']),
    RE.grp 1 (rplus (RE.cls true [CCls.ch '"', CCls.ch '\x27', CCls.ch '\n', CCls.ch '*'])),
    ropt (clsOf ['"', '\x27']), ropt (RE.lit '*'), ropt (RE.lit '*')]

/-- Source: `/[-–—].*$/` (app.js:3949). -/
def dashTailRE : RE := rcats [clsOf ['-', '–', '—'], rstar dotRE, RE.eol]

/-! ## Data model -/

/-- One extracted (media-reference, caption, hashtags) tuple
(the objects pushed onto `pairs` in `extractImageCaptionPairs`). -/
structure Pair where
  image : String
  caption : String
  hashtags : List String
deriving DecidableEq, Repr

/-- Per-item metadata (`generatedImagesMeta[path]`). -/
structure Meta where
  caption : String
  hashtags : List String
deriving DecidableEq, Repr

/-- The gallery state: the ordered `generatedImages` array plus the
`generatedImagesMeta` object (an insertion-ordered string-keyed map). -/
structure GalleryState where
  generatedImages : List String
  generatedImagesMeta : List (String × Meta)
deriving DecidableEq, Repr

def metaSet (m : List (String × Meta)) (k : String) (v : Meta) : List (String × Meta) :=
  if (m.find? (fun p => p.1 = k)).isSome then
    m.map (fun p => if p.1 = k then (k, v) else p)
  else m ++ [(k, v)]

def metaGet (m : List (String × Meta)) (k : String) : Option Meta :=
  (m.find? (fun p => p.1 = k)).map (fun p => p.2)

/-- Source: `pairs.find(p => p.image === imagePath)` truthiness. -/
def pairFound (pairs : List Pair) (img : String) : Bool :=
  (pairs.find? (fun p => p.image = img)).isSome

/-- JS `Set` insertion (`add`): insertion order is kept, duplicates dropped. -/
def insertUnique (l : List (List Char)) (x : List Char) : List (List Char) :=
  if l.contains x then l else l ++ [x]

/-! ## decodeURIComponent (app.js:3476) -/

def hexVal (c : Char) : Option Nat :=
  ("0123456789abcdef".data).findIdx? (fun d => d = jsLower c)

/-- Tokenize a URI string: `%XX` escapes become bytes, other chars pass. -/
def pctTokens : List Char → Option (List (Sum Nat Char))
  | [] => some []
  | '%' :: a :: b :: rest =>
    match hexVal a, hexVal b with
    | some x, some y => (pctTokens rest).map (fun l => Sum.inl (16 * x + y) :: l)
    | _, _ => none
  | '%' :: _ => none
  | c :: rest => (pctTokens rest).map (fun l => Sum.inr c :: l)

def mkCp (cp : Nat) : Option Char :=
  if Nat.isValidChar cp then some (Char.ofNat cp) else none

def contByte (b : Nat) : Bool := 0x80 ≤ b && b < 0xC0

/-- Decode one UTF-8 sequence whose first byte is `b`. -/
def utf8One (b : Nat) (rest : List (Sum Nat Char)) :
    Option (Char × List (Sum Nat Char)) :=
  if b < 0x80 then (mkCp b).map (fun c => (c, rest))
  else if 0xC0 ≤ b && b < 0xE0 then
    match rest with
    | Sum.inl b2 :: r2 =>
      if contByte b2 then
        (mkCp ((b - 0xC0) * 64 + (b2 - 0x80))).map (fun c => (c, r2))
      else none
    | _ => none
  else if 0xE0 ≤ b && b < 0xF0 then
    match rest with
    | Sum.inl b2 :: Sum.inl b3 :: r2 =>
      if contByte b2 && contByte b3 then
        (mkCp ((b - 0xE0) * 4096 + (b2 - 0x80) * 64 + (b3 - 0x80))).map
          (fun c => (c, r2))
      else none
    | _ => none
  else if 0xF0 ≤ b && b < 0xF8 then
    match rest with
    | Sum.inl b2 :: Sum.inl b3 :: Sum.inl b4 :: r2 =>
      if contByte b2 && contByte b3 && contByte b4 then
        (mkCp ((b - 0xF0) * 262144 + (b2 - 0x80) * 4096 + (b3 - 0x80) * 64 +
          (b4 - 0x80))).map (fun c => (c, r2))
      else none
    | _ => none
  else none

def decTokens : Nat → List (Sum Nat Char) → Option (List Char)
  | _, [] => some []
  | 0, _ => none
  | f + 1, Sum.inr c :: rest => (decTokens f rest).map (fun l => c :: l)
  | f + 1, Sum.inl b :: rest =>
    match utf8One b rest with
    | some (c, r2) => (decTokens f r2).map (fun l => c :: l)
    | none => none

/-- JS `decodeURIComponent`; `none` models a thrown `URIError`. -/
def decodeURIComponentOpt (cs : List Char) : Option (List Char) :=
  match pctTokens cs with
  | none => none
  | some toks => decTokens (toks.length + 1) toks

/-! ## sanitizeImagePath (app.js:3470-3508) -/

/-- The clean-up passes of `sanitizeImagePath` (app.js:3474-3499): URL
decoding (kept on failure), markdown/label stripping, markdown-link target
extraction, `/generated/...` slice extraction. -/
def sanitizeCore (s : String) : List Char :=
  let cs := s.data
  let cs := match decodeURIComponentOpt cs with
    | some d => d
    | none => cs
  let cs := replaceAll fN sanMdRE [] cs
  let cs := replaceAll fI sanEmojiImageRE [] cs
  let cs := replaceAll fI sanImageRE [] cs
  let cs := match matchFirst fN sanLinkRE cs with
    | some m => grpStr m 2
    | none => cs
  if containsSub cs ("/generated/".data) then
    match matchFirst fI sanGenRE cs with
    | some m => grpStr m 1
    | none => cs
  else cs

def sanitizeImagePath (s : String) : Option String :=
  if s = "" then none
  else if ("/generated/".data).isPrefixOf (sanitizeCore s) &&
      testRe fI sanExtEndRE (sanitizeCore s) then
    some (String.mk (sanitizeCore s))
  else none

/-! ## extractImageCaptionPairs (app.js:2529-2712) -/

/-- Source: `match[2].trim().replace(/\*\*/g, '').replace(/^\s*\n/gm, '').trim()`. -/
def cleanCaption (raw : List Char) : List Char :=
  jsTrim (replaceAll fM leadBlankLineRE [] (replaceAll fN boldRE [] (jsTrim raw)))

/-- Shared body of the per-match push for patterns 1, 2, 3, 4: build the pair
from groups 1/2, collect hashtags from the `win`-char window after the match,
and push unless the image is already present. -/
def pairStep (text : List Char) (win : Nat) (pairs : List Pair) (m : MatchRes) :
    List Pair :=
  let imagePath := String.mk (ensureSlash (grpStr m 1))
  let captionText := cleanCaption (grpStr m 2)
  let afterCaption := (text.drop (m.idx + m.matched.length)).take win
  let hm := matchAllStrings fN hashtagRE afterCaption
  if pairFound pairs imagePath then pairs
  else pairs ++ [⟨imagePath, String.mk (captionText.take 800), (hm.take 25).map String.mk⟩]

/-- Pattern 1: campaign post format (app.js:2537-2555). -/
def campaignPostPairs (text : List Char) : List Pair :=
  (execAll fI campaignPostRE text).foldl (pairStep text 1500) []

/-- Source: `isCarouselComplete` (app.js:2561-2562). -/
def isCarouselComplete (text : List Char) : Bool :=
  containsSub text ("Carousel Complete".data) ||
  containsSub text ("carousel complete".data) ||
  (containsSub text ("Slide".data) && containsSub text ("Headline".data) &&
    containsSub text ("Image".data))

def carouselImagePats : List RE := [carImgRE0, carImgRE1, carImgRE2, carImgRE3, carImgRE4]

/-- The deduplicated image set collected by the carousel branch
(app.js:2585-2596); JS `Set` iteration order is insertion order. -/
def carouselFoundImages (text : List Char) : List (List Char) :=
  carouselImagePats.foldl (fun acc pat =>
    (execAll fI pat text).foldl (fun acc2 m =>
      let p0 := grpStr m 1
      let p1 := if p0.isEmpty then p0 else ensureSlash p0
      if !p1.isEmpty && containsSub p1 ("/generated/".data) then insertUnique acc2 p1
      else acc2) acc) []

/-- Pattern 1.5: carousel completion format (app.js:2559-2611). -/
def carouselCompletePairs (text : List Char) : List Pair :=
  if isCarouselComplete text then
    let sharedCaption :=
      match matchFirst fI carouselCaptionRE text with
      | some m => (replaceAll fN boldRE [] (jsTrim (grpStr m 1))).take 800
      | none => []
    let sharedHashtags := ((matchAllStrings fN hashtagRE text).take 25).map String.mk
    (carouselFoundImages text).foldl (fun pairs imagePath =>
      if pairFound pairs (String.mk imagePath) then pairs
      else pairs ++ [⟨String.mk imagePath, String.mk sharedCaption, sharedHashtags⟩]) []
  else []

/-- Pattern 1.6: individual carousel slide format (app.js:2615-2638). -/
def carouselSlidePairs (text : List Char) : List Pair :=
  (execAll fI carouselSlideRE text).foldl (fun pairs m =>
    let imagePath := String.mk (ensureSlash (grpStr m 3))
    let slideSection := (text.drop m.idx).take 500
    let description := match matchFirst fI thisSlideRE slideSection with
      | some dm => dm.matched
      | none => []
    if pairFound pairs imagePath then pairs
    else pairs ++ [⟨imagePath, String.mk description, []⟩]) []

/-- Pattern 2: structured `**📸 Image:**` format (app.js:2641-2664). -/
def structuredPairs (text : List Char) : List Pair :=
  (execAll fI structuredRE text).foldl (pairStep text 1000) []

/-- Pattern 3: single post format (app.js:2667-2686). -/
def singlePostPairs (text : List Char) : List Pair :=
  (execAll fI singlePostRE text).foldl (pairStep text 1000) []

/-- Pattern 4: generic proximity format (app.js:2689-2708). -/
def genericPairs (text : List Char) : List Pair :=
  (execAll fI genericRE text).foldl (pairStep text 500) []

/-- Source: `extractImageCaptionPairs` (app.js:2529-2712): the strategies run in
priority order, each later block guarded by `if (pairs.length === 0)`. -/
def extractImageCaptionPairs (text : String) : List Pair :=
  let cs := text.data
  let pairs := campaignPostPairs cs
  let pairs := if pairs.isEmpty then carouselCompletePairs cs else pairs
  let pairs := if pairs.isEmpty then carouselSlidePairs cs else pairs
  let pairs := if pairs.isEmpty then structuredPairs cs else pairs
  let pairs := if pairs.isEmpty then singlePostPairs cs else pairs
  let pairs := if pairs.isEmpty then genericPairs cs else pairs
  pairs

/-! ## Gallery reconciliation (app.js:2379-2515, 2715-2725, 2877-2887,
3024-3027, 3185-3194)

DOM-only effects (card creation, event handlers, persistence writes) are
dropped; only `generatedImages` and `generatedImagesMeta` are modelled. -/

/-- Source: `addImageToGalleryWithCaption` (app.js:2715-2725): sanitize, bail out on
`null`, store metadata under the sanitized path. -/
def addImageToGalleryWithCaption (st : GalleryState) (imagePath caption : String)
    (hashtags : List String) : GalleryState :=
  match sanitizeImagePath imagePath with
  | none => st
  | some sp =>
    { st with generatedImagesMeta := metaSet st.generatedImagesMeta sp ⟨caption, hashtags⟩ }

/-- Source: `updateGalleryCardWithCaption` (app.js:2877-2887): metadata is
overwritten unconditionally with the incoming caption/hashtags. -/
def updateGalleryCardWithCaption (st : GalleryState) (imagePath caption : String)
    (hashtags : List String) : GalleryState :=
  match sanitizeImagePath imagePath with
  | none => st
  | some sp =>
    { st with generatedImagesMeta := metaSet st.generatedImagesMeta sp ⟨caption, hashtags⟩ }

/-- Source: `addVideoToGalleryWithCaption` (app.js:3185-3194). -/
def addVideoToGalleryWithCaption (st : GalleryState) (videoPath caption : String)
    (hashtags : List String) : GalleryState :=
  match sanitizeImagePath videoPath with
  | none => st
  | some sp =>
    { st with generatedImagesMeta := metaSet st.generatedImagesMeta sp ⟨caption, hashtags⟩ }

/-- Source: `addImageToGallery` (app.js:3024 ff.): renders a card only; it writes no
metadata, so on the modelled state it is the identity. -/
def addImageToGallery (st : GalleryState) (imagePath : String) : GalleryState :=
  match sanitizeImagePath imagePath with
  | none => st
  | some _ => st

/-- The per-pair body of the `imageCaptionPairs.forEach` in
`parseAssistantResponse` (app.js:2390-2404). -/
def reconcilePair (st : GalleryState) (p : Pair) : GalleryState :=
  if st.generatedImages.contains p.image then
    if p.caption ≠ "" ∨ p.hashtags ≠ [] then
      updateGalleryCardWithCaption st p.image p.caption p.hashtags
    else st
  else
    let st2 := { st with generatedImages := st.generatedImages ++ [p.image] }
    addImageToGalleryWithCaption st2 p.image p.caption p.hashtags

/-- Clean-up of one fallback pattern match (app.js:2426-2428). -/
def fallbackCleanPath (mat : List Char) : List Char :=
  let cp := jsTrim (replaceAll fN parensRE [] (replaceAll fI cleanImageLabelRE [] mat))
  ensureSlash cp

/-- The deduplicated `allMatches` set of the no-pairing fallback
(app.js:2408-2436). -/
def fallbackImages (text : List Char) : List (List Char) :=
  fallbackREs.foldl (fun acc flp =>
    (matchAllStrings flp.1 flp.2 text).foldl (fun acc2 mat =>
      let cleanPath := fallbackCleanPath mat
      if containsSub cleanPath ("/generated/".data) &&
          endsWithC cleanPath (".png".data) then
        insertUnique acc2 cleanPath
      else acc2) acc) []

/-- One caption fallback pattern: accepted only when the captured text trims
to more than 10 chars (app.js:2454-2460). -/
def capFromPat (text : List Char) (re : RE) : Option (List Char) :=
  match matchFirst fI re text with
  | some m =>
    let t := jsTrim (grpStr m 1)
    if 10 < t.length then some ((replaceAll fN boldRE [] t).take 800) else none
  | none => none

def fallbackCaption (text : List Char) : List Char :=
  match capFromPat text captionFallbackRE0 with
  | some c => c
  | none =>
    match capFromPat text captionFallbackRE1 with
    | some c => c
    | none => []

/-- Body of the `allMatches.forEach` (app.js:2439-2474). -/
def reconcileFallbackImg (text : List Char) (st : GalleryState) (imgPath : List Char) :
    GalleryState :=
  let img := String.mk imgPath
  if st.generatedImages.contains img then st
  else
    let st2 := { st with generatedImages := st.generatedImages ++ [img] }
    let caption := String.mk (fallbackCaption text)
    let hashtags := ((matchAllStrings fN hashtagRE text).take 25).map String.mk
    if caption ≠ "" ∨ hashtags ≠ [] then
      addImageToGalleryWithCaption st2 img caption hashtags
    else addImageToGallery st2 img

/-- Body of the `videos.forEach` (app.js:2483-2507): the video path is pushed
first, then caption/hashtags are inherited from the most recent still image
that has metadata. -/
def reconcileVideo (st : GalleryState) (videoPath : String) : GalleryState :=
  if st.generatedImages.contains videoPath then st
  else
    let st2 := { st with generatedImages := st.generatedImages ++ [videoPath] }
    let lastImage := (st2.generatedImages.filter
      (fun p => testRe fI stillImageEndRE p.data)).getLast?
    let meta := match lastImage with
      | some li => metaGet st2.generatedImagesMeta li
      | none => none
    let videoCaption := match meta with
      | some m2 => m2.caption
      | none => ""
    let videoHashtags := match meta with
      | some m2 => m2.hashtags
      | none => []
    if videoCaption ≠ "" ∨ videoHashtags ≠ [] then
      addVideoToGalleryWithCaption st2 videoPath videoCaption videoHashtags
    else addImageToGallery st2 videoPath

/-- Video pass of `parseAssistantResponse` (app.js:2477-2508). -/
def videoScan (st : GalleryState) (text : List Char) : GalleryState :=
  let videos := (matchAllStrings fI videoRE text).map (fun p => String.mk (ensureSlash p))
  videos.foldl reconcileVideo st

/-- Source: `parseAssistantResponse` (app.js:2379-2515), restricted to its effect on
the gallery state.  (`displayHashtags` and the click-handler pass touch only
the DOM.) -/
def parseAssistantResponse (st : GalleryState) (text : String) : GalleryState :=
  let cs := text.data
  let pairs := extractImageCaptionPairs text
  let st2 := if pairs.length > 0 then pairs.foldl reconcilePair st
    else (fallbackImages cs).foldl (reconcileFallbackImg cs) st
  videoScan st2 cs

/-! ## JSON (`JSON.parse`) -/

inductive Json where
  | null
  | bool (b : Bool)
  | num (raw : String)
  | str (s : String)
  | arr (items : List Json)
  | obj (fields : List (String × Json))
deriving Repr

def isJsonWs (c : Char) : Bool := c = ' ' || c = '\t' || c = '\n' || c = '\r'

def skipWs (cs : List Char) : List Char := cs.dropWhile isJsonWs

def isHex (c : Char) : Bool := (hexVal c).isSome

def hex4 (a b c d : Char) : Option Nat :=
  match hexVal a, hexVal b, hexVal c, hexVal d with
  | some x, some y, some z, some w => some (((x * 16 + y) * 16 + z) * 16 + w)
  | _, _, _, _ => none

/-- Parse the body of a JSON string after the opening quote.  Surrogate pairs
in `\u` escapes are combined; a lone surrogate is rejected (JS would keep it
as a lone UTF-16 unit, which `Char` cannot represent; no claim depends on
this corner). -/
def strBody : Nat → List Char → Option (List Char × List Char)
  | 0, _ => none
  | _ + 1, [] => none
  | f + 1, c :: rest =>
    if c = '"' then some ([], rest)
    else if c.toNat < 0x20 then none
    else if c = '\\' then
      match rest with
      | 'u' :: a :: b :: c2 :: d :: r2 =>
        match hex4 a b c2 d with
        | none => none
        | some n =>
          if 0xD800 ≤ n && n < 0xDC00 then
            match r2 with
            | '\\' :: 'u' :: a2 :: b2 :: c3 :: d2 :: r3 =>
              match hex4 a2 b2 c3 d2 with
              | some n2 =>
                if 0xDC00 ≤ n2 && n2 < 0xE000 then
                  match mkCp ((n - 0xD800) * 1024 + (n2 - 0xDC00) + 0x10000) with
                  | some ch => (strBody f r3).map (fun p => (ch :: p.1, p.2))
                  | none => none
                else none
              | none => none
            | _ => none
          else if 0xDC00 ≤ n && n < 0xE000 then none
          else
            match mkCp n with
            | some ch => (strBody f r2).map (fun p => (ch :: p.1, p.2))
            | none => none
      | e :: r2 =>
        let dec : Option Char :=
          if e = '"' then some '"'
          else if e = '\\' then some '\\'
          else if e = '/' then some '/'
          else if e = 'b' then some '\x08'
          else if e = 'f' then some '\x0c'
          else if e = 'n' then some '\n'
          else if e = 'r' then some '\r'
          else if e = 't' then some '\t'
          else none
        match dec with
        | some ch => (strBody f r2).map (fun p => (ch :: p.1, p.2))
        | none => none
      | [] => none
    else (strBody f rest).map (fun p => (c :: p.1, p.2))

def numChar (c : Char) : Bool :=
  isDigitC c || c = '-' || c = '+' || c = '.' || c = 'e' || c = 'E'

/-- Minimal JSON-number acceptor. -/
def numOk (cs : List Char) : Bool :=
  let cs2 := match cs with
    | '-' :: t => t
    | t => t
  let intPart := cs2.takeWhile isDigitC
  let rest := cs2.drop intPart.length
  let fracOk : Bool × List Char := match rest with
    | '.' :: t =>
      let d := t.takeWhile isDigitC
      (!d.isEmpty, t.drop d.length)
    | t => (true, t)
  let expOk : Bool := match fracOk.2 with
    | [] => true
    | e :: t =>
      if e = 'e' || e = 'E' then
        let t2 := match t with
          | '+' :: u => u
          | '-' :: u => u
          | u => u
        !(t2.takeWhile isDigitC).isEmpty && (t2.dropWhile isDigitC).isEmpty
      else false
  !intPart.isEmpty &&
    (intPart == ['0'] || intPart.head? != some '0') && fracOk.1 && expOk

/-- Recursive-descent JSON value parser (fuel-bounded). -/
def jsonVal : Nat → List Char → Option (Json × List Char)
  | 0, _ => none
  | f + 1, cs =>
    match skipWs cs with
    | 't' :: 'r' :: 'u' :: 'e' :: rest => some (.bool true, rest)
    | 'f' :: 'a' :: 'l' :: 's' :: 'e' :: rest => some (.bool false, rest)
    | 'n' :: 'u' :: 'l' :: 'l' :: rest => some (.null, rest)
    | '"' :: rest =>
      (strBody (rest.length + 1) rest).map (fun p => (.str (String.mk p.1), p.2))
    | '[' :: rest =>
      let rest2 := skipWs rest
      match rest2 with
      | ']' :: r3 => some (.arr [], r3)
      | _ =>
        let go : Nat → List Char → List Json → Option (Json × List Char) :=
          fun fuel2 => Nat.rec (motive := fun _ => List Char → List Json →
              Option (Json × List Char))
            (fun _ _ => none)
            (fun _ ih cs2 acc =>
              match jsonVal f cs2 with
              | none => none
              | some (v, r4) =>
                match skipWs r4 with
                | ',' :: r5 => ih r5 (acc ++ [v])
                | ']' :: r5 => some (.arr (acc ++ [v]), r5)
                | _ => none) fuel2
        go (rest2.length + 1) rest2 []
    | '\x7b' :: rest =>
      let rest2 := skipWs rest
      match rest2 with
      | '\x7d' :: r3 => some (.obj [], r3)
      | _ =>
        let go : Nat → List Char → List (String × Json) →
            Option (Json × List Char) :=
          fun fuel2 => Nat.rec (motive := fun _ => List Char →
              List (String × Json) → Option (Json × List Char))
            (fun _ _ => none)
            (fun _ ih cs2 acc =>
              match skipWs cs2 with
              | '"' :: r4 =>
                match strBody (r4.length + 1) r4 with
                | none => none
                | some (key, r5) =>
                  match skipWs r5 with
                  | ':' :: r6 =>
                    match jsonVal f r6 with
                    | none => none
                    | some (v, r7) =>
                      match skipWs r7 with
                      | ',' :: r8 => ih r8 (acc ++ [(String.mk key, v)])
                      | '\x7d' :: r8 => some (.obj (acc ++ [(String.mk key, v)]), r8)
                      | _ => none
                  | _ => none
              | _ => none) fuel2
        go (rest2.length + 1) rest2 []
    | c :: rest =>
      if c = '-' || isDigitC c then
        let body := c :: rest.takeWhile numChar
        if numOk body then
          some (.num (String.mk body), rest.drop (rest.takeWhile numChar).length)
        else none
      else none
    | [] => none

/-- Source: `JSON.parse`; `none` models a thrown `SyntaxError`. -/
def jsonParse (s : String) : Option Json :=
  match jsonVal (s.data.length + 1) s.data with
  | some (j, rest) => if (skipWs rest).isEmpty then some j else none
  | none => none

/-- JS `parsed.key !== undefined` for a parsed JSON value. -/
def hasFieldJ (j : Json) (k : String) : Bool :=
  match j with
  | .obj fs => (fs.find? (fun p => p.1 = k)).isSome
  | _ => false

def jsonGetStr (j : Json) (k : String) : String :=
  match j with
  | .obj fs =>
    match (fs.find? (fun p => p.1 = k)).map (fun p => p.2) with
    | some (Json.str s) => s
    | _ => ""
  | _ => ""

/-! ## parseStructuredResponse (app.js:3669-3724) -/

/-- Strategy 2 candidate loop (app.js:3685-3697): a candidate whose parse
throws, or which lacks the two fields, is skipped. -/
def firstSimpleEnvelope : List (List Char) → Option Json
  | [] => none
  | c :: rest =>
    match jsonParse (String.mk c) with
    | some j =>
      if hasFieldJ j "text" && hasFieldJ j "has_choices" then some j
      else firstSimpleEnvelope rest
    | none => firstSimpleEnvelope rest

/-- Strategy 3 candidate loop (app.js:3703-3716): literal newlines are
escaped before parsing. -/
def firstComplexEnvelope : List (List Char) → Option Json
  | [] => none
  | c :: rest =>
    let c2 := replaceAll fN nlRE ['\\', 'n'] c
    match jsonParse (String.mk c2) with
    | some j => if hasFieldJ j "text" then some j else firstComplexEnvelope rest
    | none => firstComplexEnvelope rest

def envelopeStrategies23 (text : String) : Option Json :=
  match firstSimpleEnvelope (matchAllStrings fN jsonSimpleRE text.data) with
  | some j => some j
  | none => firstComplexEnvelope (matchAllStrings fN jsonComplexRE text.data)

/-- Source: `parseStructuredResponse` (app.js:3669-3724).  NB: when strategy 1's
guard holds but `JSON.parse` throws, the outer `catch` returns `null`
without trying strategies 2 and 3. -/
def parseStructuredResponse (text : String) : Option Json :=
  let t := jsTrim text.data
  if t.head? = some '\x7b' && t.getLast? = some '\x7d' then
    match jsonParse (String.mk t) with
    | none => none
    | some j =>
      if hasFieldJ j "text" && hasFieldJ j "has_choices" then some j
      else envelopeStrategies23 text
  else envelopeStrategies23 text

/-! ## detectChoicesInMessage (app.js:3873-3967) -/

structure Choice where
  icon : String
  label : String
  value : String
  description : String
deriving DecidableEq, Repr

/-- Source: `getChoiceIcon` (app.js:3972-3987). -/
def getChoiceIcon (text : String) : String :=
  let lower := lowerStr text
  let has := fun (w : String) => containsSub lower.data w.data
  if has "yes" || has "approve" || has "confirm" then "✅"
  else if has "no" || has "cancel" || has "reject" then "❌"
  else if has "skip" then "⏭️"
  else if has "edit" || has "tweak" || has "change" then "✏️"
  else if has "done" || has "finish" then "🎉"
  else if has "single" || has "post" then "📸"
  else if has "campaign" then "📅"
  else if has "carousel" then "🖼️"
  else if has "quick" || has "image" || has "general" then "✨"
  else if has "animate" then "🎬"
  else if has "caption" then "📝"
  else if has "hashtag" then "#️⃣"
  else ""

/-- The shared push-if-unseen step: `seenLabels` keyed by the lower-cased
label (app.js:3888-3896 and the three analogous sites). -/
def pushChoice (sc : List String × List Choice) (c : Choice) :
    List String × List Choice :=
  if sc.1.contains (lowerStr c.label) then sc
  else (sc.1 ++ [lowerStr c.label], sc.2 ++ [c])

/-- Pattern 1a step (app.js:3883-3897). -/
def p1aStep (sc : List String × List Choice) (m : MatchRes) :
    List String × List Choice :=
  let icon := String.mk (jsTrim (grpStr m 1))
  let label := String.mk (jsTrim (grpStr m 2))
  let descr := String.mk (jsTrim (grpStr m 3))
  pushChoice sc ⟨icon, label, label, descr⟩

/-- Pattern 1b step (app.js:3901-3917). -/
def p1bStep (sc : List String × List Choice) (m : MatchRes) :
    List String × List Choice :=
  let fullLabel := jsTrim (grpStr m 1)
  let descr := String.mk (jsTrim (grpStr m 2))
  let icon := match matchFirst fN iconHeadRE fullLabel with
    | some im => String.mk (grpStr im 1)
    | none => ""
  let cleanLabel := String.mk (jsTrim (replaceFirst fN iconStripRE [] fullLabel))
  pushChoice sc ⟨icon, cleanLabel, cleanLabel, descr⟩

/-- Pattern 2 step (app.js:3921-3936). -/
def p2Step (sc : List String × List Choice) (m : MatchRes) :
    List String × List Choice :=
  let options := splitByRe fN slashSepRE (grpStr m 1)
  options.foldl (fun sc2 opt =>
    let cleanOpt := String.mk (replaceAll fN boldRE [] (jsTrim opt))
    if cleanOpt ≠ "" then pushChoice sc2 ⟨getChoiceIcon cleanOpt, cleanOpt, cleanOpt, ""⟩
    else sc2) sc

/-- Pattern 4 step (app.js:3944-3960). -/
def p4Step (sc : List String × List Choice) (m : MatchRes) :
    List String × List Choice :=
  let bulletBlock := grpStr m 1
  (execAll fN bulletRE bulletBlock).foldl (fun sc2 bm =>
    let opt := String.mk (jsTrim (replaceFirst fN dashTailRE [] (jsTrim (grpStr bm 1))))
    if opt ≠ "" ∧ opt.length < 50 then
      pushChoice sc2 ⟨getChoiceIcon opt, opt, opt, ""⟩
    else sc2) sc

/-- The accumulated, label-deduplicated candidate list (the `choices` array
right before the final bound check, app.js:3874-3960). -/
def detectCandidates (text : String) : List Choice :=
  let cs := text.data
  let sc : List String × List Choice := ([], [])
  let sc := (execAll fN emojiOutsideRE cs).foldl p1aStep sc
  let sc := (execAll fN emojiInsideRE cs).foldl p1bStep sc
  let sc := (execAll fN inlineChoiceRE cs).foldl p2Step sc
  let sc := (execAll fI bulletOptionsRE cs).foldl p4Step sc
  sc.2

/-- Source: `detectChoicesInMessage` (app.js:3873-3967). -/
def detectChoicesInMessage (text : String) : List Choice :=
  let choices := detectCandidates text
  if 2 ≤ choices.length ∧ choices.length ≤ 8 then choices else []

/-! ## Stream consumption (app.js:1612-1680)

A frame models one `data: `-prefixed SSE line after JSON decoding; a line
that fails to decode is `malformed` (silently skipped, app.js:1671).  The
two `...RanOn` fields are observation-only ghost fields recording which text
`parseAssistantResponse` (app.js:1653/3740) and the fallback
`detectChoicesInMessage` (app.js:1658) were invoked on; no modelled code
reads them. -/

inductive Frame where
  | session (id : String)
  | text (content : String)
  | done
  | malformed
deriving DecidableEq, Repr

structure AppState where
  gallery : GalleryState
  sessionId : Option String
  buffer : String
  messageElement : Bool
  firstContent : Bool
  extractionRanOn : Option String
  choiceDetectorRanOn : Option String
deriving DecidableEq, Repr

/-- The `data.type === 'done'` branch (app.js:1644-1670), including
`handleStructuredResponse` (app.js:3731-3760). -/
def handleDone (st : AppState) : AppState :=
  match parseStructuredResponse st.buffer with
  | some j =>
    let t := jsonGetStr j "text"
    { st with gallery := parseAssistantResponse st.gallery t,
              extractionRanOn := some t }
  | none =>
    let g := parseAssistantResponse st.gallery st.buffer
    if st.messageElement then
      { st with gallery := g, extractionRanOn := some st.buffer,
                choiceDetectorRanOn := some st.buffer }
    else
      { st with gallery := g, extractionRanOn := some st.buffer }

def stepFrame (st : AppState) (fr : Frame) : AppState :=
  match fr with
  | .session id => { st with sessionId := some id }
  | .text content =>
    { st with buffer := st.buffer ++ content, firstContent := true,
              messageElement := true }
  | .done => handleDone st
  | .malformed => st

/-- Source: `processStreamResponse` (app.js:1612-1680) as a fold over decoded
frames; a stream that is aborted mid-way is modelled by a frame list that
simply ends early. -/
def processStream (frames : List Frame) (st : AppState) : AppState :=
  frames.foldl stepFrame st

def initialAppState (g : GalleryState) : AppState :=
  ⟨g, none, "", false, false, none, none⟩

/-! ## Claim scenario inputs and spec-side predicates -/

/-! ## Regex soundness

`AcceptsS fl re pre suf` over-approximates "`re` can consume `pre` when
`suf` remains": quantifier bounds, lookahead bodies and `^` context are
dropped, but consumed shapes and the `$` end-condition are kept.  This is
all the claims need. -/

inductive AcceptsS (fl : RFlags) : RE → List Char → List Char → Prop where
  | eps {suf} : AcceptsS fl RE.eps [] suf
  | lit {c d suf} (h : litOk fl.ci c d = true) : AcceptsS fl (RE.lit c) [d] suf
  | cls {neg items d suf} (h : clsMem fl.ci neg items d = true) :
      AcceptsS fl (RE.cls neg items) [d] suf
  | cat {a b xs ys suf} : AcceptsS fl a xs (ys ++ suf) → AcceptsS fl b ys suf →
      AcceptsS fl (RE.cat a b) (xs ++ ys) suf
  | altL {a b xs suf} : AcceptsS fl a xs suf → AcceptsS fl (RE.alt a b) xs suf
  | altR {a b xs suf} : AcceptsS fl b xs suf → AcceptsS fl (RE.alt a b) xs suf
  | repNil {r lo hi lz suf} : AcceptsS fl (RE.rep r lo hi lz) [] suf
  | repCons {r lo hi lz lo2 hi2 lz2 xs ys suf} :
      AcceptsS fl r xs (ys ++ suf) → AcceptsS fl (RE.rep r lo2 hi2 lz2) ys suf →
      AcceptsS fl (RE.rep r lo hi lz) (xs ++ ys) suf
  | grp {i r xs suf} : AcceptsS fl r xs suf → AcceptsS fl (RE.grp i r) xs suf
  | look {r suf} : AcceptsS fl (RE.look r) [] suf
  | bol {suf} : AcceptsS fl RE.bol [] suf
  | eol {suf} (h : eolOk fl suf = true) : AcceptsS fl RE.eol [] suf


/-- The carousel-scenario input of C4: "Carousel Complete", a shared caption,
a six-tag hashtag line, three distinct slide images in markdown links. -/
def carouselText : String :=
  "🎊 Carousel Complete!\n[📷 View Image](/generated/slide1.png)\n[📷 View Image](/generated/slide2.png)\n[📷 View Image](/generated/slide3.png)\nCaption: Summer vibes\n#️⃣ Hashtags: #sun #beach #fun #sea #sand #waves\n"

/-- A text matched both by the labeled-post pattern and by the generic
proximity pattern (an image reference within 200 chars of a `Caption:`
label). -/
def precedenceText : String :=
  "✅ Post 1 of 1 Created!\nImage: /generated/post_a1.png\nCaption:\nGreat day out\nHashtags: #fun #fun\n"

/-- The truncated envelope of the malformed-JSON scenario. -/
def malformedBuf : String :=
  "\x7b\"text\": \"Pick one\", \"has_choices\": true, \"choices\": ["

/-- One token of the spec grammar `#[A-Za-z][A-Za-z0-9_]*`. -/
def isHashtagToken (s : String) : Bool :=
  match s.data with
  | '#' :: c :: rest =>
    clsMem false false azAZ c && rest.all (clsMem false false azAZ09u)
  | _ => false


/-- Pair property asserted by the amended C5. -/
def hashtagsOk (p : Pair) : Prop :=
  p.hashtags.length ≤ 25 ∧ ∀ h ∈ p.hashtags, isHashtagToken h = true

/-- Invariant of the choice-accumulation loops: the collected labels are
pairwise distinct case-insensitively, and every collected label's lower case
is registered in `seenLabels`. -/
def choiceInv (sc : List String × List Choice) : Prop :=
  (sc.2.map (fun c => lowerStr c.label)).Nodup ∧
  ∀ l ∈ sc.2.map (fun c => lowerStr c.label), l ∈ sc.1


/-- The extensions of the spec's media-reference grammar (§6). -/
def mediaExts : List String :=
  ["png", "jpg", "jpeg", "gif", "webp", "mp4", "webm", "mov"]

/-- Modelled from the spec: `must match /generated/<token>.<ext>` with
`<ext> ∈ {png, jpg, jpeg, gif, webp, mp4, webm, mov}` — here only the
extension half, read literally (case-sensitively). -/
def specMediaExtOk (s : String) : Bool :=
  mediaExts.any (fun e => endsWithC s.data ('.' :: e.data))


/-- The C5 shape of one stored metadata entry: at most 25 hashtag tokens,
each matching the grammar. -/
def metaOk (m : Meta) : Prop :=
  m.hashtags.length ≤ 25 ∧ ∀ h ∈ m.hashtags, isHashtagToken h = true

/-- Every metadata entry stored in the gallery satisfies `metaOk`. -/
def stateOk (st : GalleryState) : Prop :=
  ∀ k m, metaGet st.generatedImagesMeta k = some m → metaOk m

/-- Cross-concatenation of two lists of candidate strings. -/
def crossCat (la lb : List (List Char)) : List (List Char) :=
  (la.map (fun x => lb.map (fun y => x ++ y))).flatten

/-- When `litRuns re = some L`, every string `re` can accept (under any
flags) has its `jsLower` image in `L`; `none` means no finite description
at this node. -/
def litRuns : RE → Option (List (List Char))
  | RE.eps => some [[]]
  | RE.lit c => some [[jsLower c]]
  | RE.cat a b =>
    match litRuns a, litRuns b with
    | some la, some lb => some (crossCat la lb)
    | _, _ => none
  | RE.alt a b =>
    match litRuns a, litRuns b with
    | some la, some lb => some (la ++ lb)
    | _, _ => none
  | RE.grp _ r => litRuns r
  | _ => none

/-- Every candidate string of this node contains one of the `needles`. -/
def litRunsAll (needles : List (List Char)) (re : RE) : Bool :=
  match litRuns re with
  | some L => L.all (fun l => needles.any (fun n => containsSub l n))
  | none => false

/-- Conservative syntactic check that every string `re` can accept contains
(lowered) at least one of the `needles` as a substring. -/
def needsAny (needles : List (List Char)) : RE → Bool
  | RE.cat a b =>
    litRunsAll needles (RE.cat a b) || needsAny needles a || needsAny needles b
  | RE.alt a b =>
    litRunsAll needles (RE.alt a b) || (needsAny needles a && needsAny needles b)
  | RE.grp _ r => needsAny needles r
  | re => litRunsAll needles re

/-- The lowered needle of the still-image reference grammar (every still-image
pattern carries a literal `.png`). -/
def pngNeedles : List (List Char) := [".png".data]

/-- The lowered needles of the video reference grammar. -/
def vidNeedles : List (List Char) := [".mp4".data, ".webm".data, ".mov".data]

/-- A response text carrying only non-png image references (the claim's four
example extensions) and no video reference. -/
def c10Text : String :=
  "Image: /generated/a.jpg and /generated/a.jpeg then /generated/a.gif, /generated/a.webp\nCaption:\nNice gallery artwork for today\nHashtags: #art #fun"

/-! ## Helper lemmas -/

theorem metaGet_metaSet (m : List (String × Meta)) (k : String) (v : Meta) :
    metaGet (metaSet m k v) k = some v := by
  unfold metaSet metaGet
  by_cases h : (m.find? (fun p => p.1 = k)).isSome = true
  · rw [if_pos h]
    induction m with
    | nil => simp at h
    | cons hd tl ih =>
      by_cases hk : hd.1 = k
      · simp [List.find?_cons, hk]
      · simp only [List.map_cons, if_neg hk, List.find?_cons]
        have : (decide (hd.1 = k)) = false := by simp [hk]
        rw [this]
        simp only [List.find?_cons, this] at h ⊢
        exact ih h
  · rw [if_neg h]
    have hnone : m.find? (fun p => p.1 = k) = none := by
      cases hf : m.find? (fun p => p.1 = k) with
      | none => rfl
      | some x => rw [hf] at h; simp at h
    rw [List.find?_append, hnone]
    simp

theorem updateCard_generatedImages (st : GalleryState) (a b : String)
    (c : List String) :
    (updateGalleryCardWithCaption st a b c).generatedImages = st.generatedImages := by
  unfold updateGalleryCardWithCaption
  cases sanitizeImagePath a <;> rfl

theorem addWithCaption_generatedImages (st : GalleryState) (a b : String)
    (c : List String) :
    (addImageToGalleryWithCaption st a b c).generatedImages = st.generatedImages := by
  unfold addImageToGalleryWithCaption
  cases sanitizeImagePath a <;> rfl

theorem reconcile_contains (st : GalleryState) (p : Pair) :
    (reconcilePair st p).generatedImages.contains p.image = true := by
  unfold reconcilePair
  by_cases h : st.generatedImages.contains p.image = true
  · rw [if_pos h]
    by_cases h2 : p.caption ≠ "" ∨ p.hashtags ≠ []
    · rw [if_pos h2, updateCard_generatedImages]; exact h
    · rw [if_neg h2]; exact h
  · rw [if_neg h]
    rw [addWithCaption_generatedImages]
    simp

theorem reconcile_generatedImages_of_contains (st : GalleryState) (p : Pair)
    (h : st.generatedImages.contains p.image = true) :
    (reconcilePair st p).generatedImages = st.generatedImages := by
  unfold reconcilePair
  rw [if_pos h]
  by_cases h2 : p.caption ≠ "" ∨ p.hashtags ≠ []
  · rw [if_pos h2, updateCard_generatedImages]
  · rw [if_neg h2]

/-- Soundness of the matcher: success means the input splits into a consumed
part accepted by the regex and a remainder passed to the continuation. -/
theorem mtch_sound (fl : RFlags) :
    ∀ (f : Nat) (re : RE) (cs : List Char) (prev : Option Char) (caps : Caps)
      (k : MK) (out : List Char × Caps),
      mtch fl f re cs prev caps k = some out →
      ∃ pre suf prev2 caps2, cs = pre ++ suf ∧ AcceptsS fl re pre suf ∧
        k suf prev2 caps2 = some out := by
  intro f
  induction f with
  | zero => intro re cs prev caps k out h; simp [mtch] at h
  | succ f ih =>
    intro re cs prev caps k out h
    cases re with
    | eps =>
      exact ⟨[], cs, prev, caps, rfl, AcceptsS.eps, by simpa [mtch] using h⟩
    | lit c =>
      cases cs with
      | nil => simp [mtch] at h
      | cons d t =>
        simp only [mtch] at h
        by_cases hd : litOk fl.ci c d = true
        · rw [if_pos hd] at h
          exact ⟨[d], t, some d, caps, rfl, AcceptsS.lit hd, h⟩
        · rw [if_neg hd] at h; simp at h
    | cls neg items =>
      cases cs with
      | nil => simp [mtch] at h
      | cons d t =>
        simp only [mtch] at h
        by_cases hd : clsMem fl.ci neg items d = true
        · rw [if_pos hd] at h
          exact ⟨[d], t, some d, caps, rfl, AcceptsS.cls hd, h⟩
        · rw [if_neg hd] at h; simp at h
    | cat a b =>
      simp only [mtch] at h
      obtain ⟨pre1, suf1, p1, c1, hs1, ha1, hk1⟩ := ih a cs prev caps _ out h
      obtain ⟨pre2, suf2, p2, c2, hs2, ha2, hk2⟩ := ih b suf1 p1 c1 k out hk1
      refine ⟨pre1 ++ pre2, suf2, p2, c2, ?_, ?_, hk2⟩
      · rw [hs1, hs2, List.append_assoc]
      · exact AcceptsS.cat (hs2 ▸ ha1) ha2
    | alt a b =>
      simp only [mtch] at h
      cases hm : mtch fl f a cs prev caps k with
      | some o =>
        rw [hm] at h
        obtain ⟨pre1, suf1, p1, c1, hs1, ha1, hk1⟩ := ih a cs prev caps k out (by
          rw [hm]; simpa using h)
        exact ⟨pre1, suf1, p1, c1, hs1, AcceptsS.altL ha1, hk1⟩
      | none =>
        rw [hm] at h
        obtain ⟨pre1, suf1, p1, c1, hs1, ha1, hk1⟩ := ih b cs prev caps k out h
        exact ⟨pre1, suf1, p1, c1, hs1, AcceptsS.altR ha1, hk1⟩
    | rep r lo hi lz =>
      simp only [mtch] at h
      by_cases hlo : lo > 0
      · rw [if_pos hlo] at h
        by_cases hhi : hiPos hi = true
        · rw [if_pos hhi] at h
          obtain ⟨pre1, suf1, p1, c1, hs1, ha1, hk1⟩ := ih r cs prev caps _ out h
          obtain ⟨pre2, suf2, p2, c2, hs2, ha2, hk2⟩ := ih _ suf1 p1 c1 k out hk1
          refine ⟨pre1 ++ pre2, suf2, p2, c2, ?_, ?_, hk2⟩
          · rw [hs1, hs2, List.append_assoc]
          · exact AcceptsS.repCons (hs2 ▸ ha1) ha2
        · rw [if_neg hhi] at h; simp at h
      · rw [if_neg hlo] at h
        by_cases hlz : lz = true
        · rw [if_pos hlz] at h
          cases hk0 : k cs prev caps with
          | some o =>
            rw [hk0] at h
            exact ⟨[], cs, prev, caps, rfl, AcceptsS.repNil, by rw [hk0, ← h]⟩
          | none =>
            rw [hk0] at h
            by_cases hhi : hiPos hi = true
            · rw [if_pos hhi] at h
              obtain ⟨pre1, suf1, p1, c1, hs1, ha1, hk1⟩ := ih r cs prev caps _ out h
              by_cases hlen : suf1.length = cs.length
              · rw [if_pos hlen] at hk1; simp at hk1
              · rw [if_neg hlen] at hk1
                obtain ⟨pre2, suf2, p2, c2, hs2, ha2, hk2⟩ := ih _ suf1 p1 c1 k out hk1
                refine ⟨pre1 ++ pre2, suf2, p2, c2, ?_, ?_, hk2⟩
                · rw [hs1, hs2, List.append_assoc]
                · exact AcceptsS.repCons (hs2 ▸ ha1) ha2
            · rw [if_neg hhi] at h; simp at h
        · rw [if_neg hlz] at h
          cases hit : (if hiPos hi = true then
              mtch fl f r cs prev caps (fun cs2 p2 caps2 =>
                if cs2.length = cs.length then none
                else mtch fl f (RE.rep r 0 (hiDec hi) lz) cs2 p2 caps2 k)
            else none) with
          | some o =>
            rw [hit] at h
            by_cases hhi : hiPos hi = true
            · rw [if_pos hhi] at hit
              obtain ⟨pre1, suf1, p1, c1, hs1, ha1, hk1⟩ :=
                ih r cs prev caps _ o hit
              by_cases hlen : suf1.length = cs.length
              · rw [if_pos hlen] at hk1; simp at hk1
              · rw [if_neg hlen] at hk1
                obtain ⟨pre2, suf2, p2, c2, hs2, ha2, hk2⟩ :=
                  ih _ suf1 p1 c1 k o hk1
                refine ⟨pre1 ++ pre2, suf2, p2, c2, ?_, ?_, by rw [hk2, ← h]⟩
                · rw [hs1, hs2, List.append_assoc]
                · exact AcceptsS.repCons (hs2 ▸ ha1) ha2
            · rw [if_neg hhi] at hit; simp at hit
          | none =>
            rw [hit] at h
            exact ⟨[], cs, prev, caps, rfl, AcceptsS.repNil, h⟩
    | grp i r =>
      simp only [mtch] at h
      obtain ⟨pre1, suf1, p1, c1, hs1, ha1, hk1⟩ := ih r cs prev caps _ out h
      exact ⟨pre1, suf1, p1, _, hs1, AcceptsS.grp ha1, hk1⟩
    | look r =>
      simp only [mtch] at h
      cases hm : mtch fl f r cs prev caps (fun cs2 _ caps2 => some (cs2, caps2)) with
      | some o => rw [hm] at h; exact ⟨[], cs, prev, caps, rfl, AcceptsS.look, h⟩
      | none => rw [hm] at h; simp at h
    | bol =>
      simp only [mtch] at h
      by_cases hb : bolOk fl prev = true
      · rw [if_pos hb] at h
        exact ⟨[], cs, prev, caps, rfl, AcceptsS.bol, h⟩
      · rw [if_neg hb] at h; simp at h
    | eol =>
      simp only [mtch] at h
      by_cases hb : eolOk fl cs = true
      · rw [if_pos hb] at h
        exact ⟨[], cs, prev, caps, rfl, AcceptsS.eol hb, h⟩
      · rw [if_neg hb] at h; simp at h

/-- Soundness of the position scan: a reported match is a slice of the input
accepted by the regex, with the rest of the input as its right context. -/
theorem searchAux_sound (fl : RFlags) (fuel : Nat) (re : RE) :
    ∀ (cs : List Char) (prev : Option Char) (i : Nat) (m : MatchRes),
      searchAux fl fuel re cs prev i = some m →
      ∃ skipped suf, cs = skipped ++ m.matched ++ suf ∧
        AcceptsS fl re m.matched suf := by
  intro cs
  induction cs with
  | nil =>
    intro prev i m h
    simp only [searchAux] at h
    cases ht : tryAt fl fuel re [] prev with
    | some rc =>
      rw [ht] at h
      obtain ⟨pre, suf, p2, c2, hs, ha, hk⟩ :=
        mtch_sound fl fuel re [] prev [] _ rc ht
      have hpre : pre = [] := by
        cases pre with
        | nil => rfl
        | cons a b => simp at hs
      have hsuf : suf = [] := by
        cases suf with
        | nil => rfl
        | cons a b => rw [hpre] at hs; simp at hs
      cases h
      refine ⟨[], [], by simp, ?_⟩
      have := hpre ▸ hsuf ▸ ha
      simpa using this
    | none =>
      rw [ht] at h
      simp at h
  | cons c t ih =>
    intro prev i m h
    simp only [searchAux] at h
    cases ht : tryAt fl fuel re (c :: t) prev with
    | some rc =>
      rw [ht] at h
      obtain ⟨pre, suf, p2, c2, hs, ha, hk⟩ :=
        mtch_sound fl fuel re (c :: t) prev [] _ rc ht
      cases hk
      cases h
      have hlen : (c :: t).length - suf.length = pre.length := by
        rw [hs]; simp
      refine ⟨[], suf, ?_, ?_⟩
      · simp only [List.nil_append]
        rw [hlen, hs, List.take_left]
      · rw [hlen, hs, List.take_left]
        exact ha
    | none =>
      rw [ht] at h
      obtain ⟨skipped, suf, hs, ha⟩ := ih (some c) (i + 1) m h
      exact ⟨c :: skipped, suf, by simp [hs], ha⟩

theorem matchFirst_sound (fl : RFlags) (re : RE) (cs : List Char) (m : MatchRes)
    (h : matchFirst fl re cs = some m) :
    ∃ skipped suf, cs = skipped ++ m.matched ++ suf ∧
      AcceptsS fl re m.matched suf :=
  searchAux_sound fl (mfuel cs.length) re cs none 0 m h

theorem execAllAux_sound (fl : RFlags) (fuel : Nat) (re : RE) :
    ∀ (g : Nat) (cs : List Char) (prev : Option Char) (i : Nat) (m : MatchRes),
      m ∈ execAllAux fl fuel re g cs prev i →
      ∃ suf, AcceptsS fl re m.matched suf := by
  intro g
  induction g with
  | zero => intro cs prev i m h; simp [execAllAux] at h
  | succ g ih =>
    intro cs prev i m h
    simp only [execAllAux] at h
    cases hs : searchAux fl fuel re cs prev i with
    | none => rw [hs] at h; simp at h
    | some m0 =>
      rw [hs] at h
      simp only [List.mem_cons] at h
      cases h with
      | inl he =>
        obtain ⟨sk, suf, _, ha⟩ := searchAux_sound fl fuel re cs prev i m0 hs
        exact ⟨suf, he ▸ ha⟩
      | inr hm => exact ih _ _ _ m hm

theorem matchAllStrings_sound (fl : RFlags) (re : RE) (cs : List Char)
    (w : List Char) (h : w ∈ matchAllStrings fl re cs) :
    ∃ suf, AcceptsS fl re w suf := by
  unfold matchAllStrings at h
  obtain ⟨m, hm, hw⟩ := List.mem_map.mp h
  exact hw ▸ execAllAux_sound fl (mfuel cs.length) re _ cs none 0 m hm

/-! ## Inversion helpers -/

theorem acceptsS_lit_inv {fl c xs suf} (h : AcceptsS fl (RE.lit c) xs suf) :
    ∃ d, xs = [d] ∧ litOk fl.ci c d = true := by
  cases h with
  | lit hd => exact ⟨_, rfl, hd⟩

theorem acceptsS_cls_inv {fl neg items xs suf}
    (h : AcceptsS fl (RE.cls neg items) xs suf) :
    ∃ d, xs = [d] ∧ clsMem fl.ci neg items d = true := by
  cases h with
  | cls hd => exact ⟨_, rfl, hd⟩

theorem acceptsS_cat_inv {fl a b xs suf} (h : AcceptsS fl (RE.cat a b) xs suf) :
    ∃ xs1 xs2, xs = xs1 ++ xs2 ∧ AcceptsS fl a xs1 (xs2 ++ suf) ∧
      AcceptsS fl b xs2 suf := by
  cases h with
  | cat h1 h2 => exact ⟨_, _, rfl, h1, h2⟩

theorem acceptsS_alt_inv {fl a b xs suf} (h : AcceptsS fl (RE.alt a b) xs suf) :
    AcceptsS fl a xs suf ∨ AcceptsS fl b xs suf := by
  cases h with
  | altL h1 => exact Or.inl h1
  | altR h1 => exact Or.inr h1

theorem acceptsS_eol_inv {fl xs suf} (h : AcceptsS fl RE.eol xs suf) :
    xs = [] ∧ eolOk fl suf = true := by
  cases h with
  | eol hb => exact ⟨rfl, hb⟩

theorem acceptsS_grp_inv {fl i r xs suf} (h : AcceptsS fl (RE.grp i r) xs suf) :
    AcceptsS fl r xs suf := by
  cases h with
  | grp h1 => exact h1

theorem acceptsS_eps_inv {fl : RFlags} {xs suf : List Char}
    (h : AcceptsS fl RE.eps xs suf) : xs = [] := by
  cases h with
  | eps => rfl

theorem litOk_lower {ci : Bool} {c d : Char} (h : litOk ci c d = true) :
    jsLower d = jsLower c := by
  unfold litOk at h
  cases ci with
  | true => simpa using h
  | false => simp at h; rw [h]

/-- Every character consumed by a repetition of `r` satisfies any predicate
that all `r`-consumptions satisfy. -/
theorem acceptsS_rep_all {fl : RFlags} (r : RE) (p : Char → Bool)
    (hr : ∀ xs suf2, AcceptsS fl r xs suf2 → xs.all p = true) :
    ∀ {re2 : RE} {xs suf : List Char}, AcceptsS fl re2 xs suf →
      (∃ lo hi lz, re2 = RE.rep r lo hi lz) → xs.all p = true := by
  intro re2 xs suf h
  induction h with
  | eps => intro ⟨lo, hi, lz, he⟩; cases he
  | lit _ => intro ⟨lo, hi, lz, he⟩; cases he
  | cls _ => intro ⟨lo, hi, lz, he⟩; cases he
  | cat _ _ _ _ => intro ⟨lo, hi, lz, he⟩; cases he
  | altL _ _ => intro ⟨lo, hi, lz, he⟩; cases he
  | altR _ _ => intro ⟨lo, hi, lz, he⟩; cases he
  | repNil => intro _; rfl
  | repCons h1 h2 ih1 ih2 =>
    intro ⟨lo, hi, lz, he⟩
    cases he
    rw [List.all_append]
    rw [hr _ _ h1, ih2 ⟨_, _, _, rfl⟩]
    rfl
  | grp _ _ => intro ⟨lo, hi, lz, he⟩; cases he
  | look => intro ⟨lo, hi, lz, he⟩; cases he
  | bol => intro ⟨lo, hi, lz, he⟩; cases he
  | eol _ => intro ⟨lo, hi, lz, he⟩; cases he

/-! ## Mandatory-literal analysis: soundness of `needsAny` -/

theorem containsSub_nil_right (hay : List Char) : containsSub hay [] = true := by
  cases hay with
  | nil => rfl
  | cons c t => rfl

theorem containsSub_append_right (n h t : List Char)
    (hh : containsSub t n = true) : containsSub (h ++ t) n = true := by
  induction h with
  | nil => simpa using hh
  | cons c cs ih =>
    simp only [List.cons_append, containsSub, Bool.or_eq_true]
    exact Or.inr ih

theorem containsSub_append_left (n t h : List Char)
    (hh : containsSub h n = true) : containsSub (h ++ t) n = true := by
  induction h with
  | nil =>
    have hn : n = [] := by
      cases n with
      | nil => rfl
      | cons a b => simp [containsSub] at hh
    rw [hn]
    simpa using containsSub_nil_right t
  | cons c cs ih =>
    simp only [containsSub, Bool.or_eq_true] at hh
    simp only [List.cons_append, containsSub, Bool.or_eq_true]
    rcases hh with hp | hc
    · left
      rw [List.isPrefixOf_iff_prefix] at hp ⊢
      exact hp.trans (List.prefix_append (c :: cs) t)
    · right
      exact ih hc

theorem crossCat_mem {la lb : List (List Char)} {x y : List Char}
    (hx : x ∈ la) (hy : y ∈ lb) : x ++ y ∈ crossCat la lb := by
  unfold crossCat
  exact List.mem_flatten.mpr ⟨lb.map (fun y2 => x ++ y2),
    List.mem_map.mpr ⟨x, hx, rfl⟩, List.mem_map.mpr ⟨y, hy, rfl⟩⟩

theorem litRuns_sound : ∀ (re : RE) (L : List (List Char)), litRuns re = some L →
    ∀ (fl : RFlags) (xs suf : List Char), AcceptsS fl re xs suf →
      xs.map jsLower ∈ L := by
  intro re
  induction re with
  | eps =>
    intro L hL fl xs suf h
    simp only [litRuns, Option.some.injEq] at hL
    rw [acceptsS_eps_inv h, ← hL]
    simp
  | lit c =>
    intro L hL fl xs suf h
    simp only [litRuns, Option.some.injEq] at hL
    obtain ⟨d, hxs, hlit⟩ := acceptsS_lit_inv h
    rw [hxs, ← hL]
    simp [litOk_lower hlit]
  | cls neg items =>
    intro L hL fl xs suf h
    simp only [litRuns] at hL
    exact Option.noConfusion hL
  | cat a b iha ihb =>
    intro L hL fl xs suf h
    simp only [litRuns] at hL
    cases hla : litRuns a with
    | none => rw [hla] at hL; exact Option.noConfusion hL
    | some la =>
      cases hlb : litRuns b with
      | none => rw [hla, hlb] at hL; exact Option.noConfusion hL
      | some lb =>
        rw [hla, hlb] at hL
        have hLe : L = crossCat la lb := (Option.some.inj hL).symm
        obtain ⟨xs1, xs2, hxs, h1, h2⟩ := acceptsS_cat_inv h
        rw [hxs, List.map_append, hLe]
        exact crossCat_mem (iha la hla fl xs1 _ h1) (ihb lb hlb fl xs2 _ h2)
  | alt a b iha ihb =>
    intro L hL fl xs suf h
    simp only [litRuns] at hL
    cases hla : litRuns a with
    | none => rw [hla] at hL; exact Option.noConfusion hL
    | some la =>
      cases hlb : litRuns b with
      | none => rw [hla, hlb] at hL; exact Option.noConfusion hL
      | some lb =>
        rw [hla, hlb] at hL
        have hLe : L = la ++ lb := (Option.some.inj hL).symm
        rw [hLe]
        rcases acceptsS_alt_inv h with h1 | h1
        · exact List.mem_append_left lb (iha la hla fl xs suf h1)
        · exact List.mem_append_right la (ihb lb hlb fl xs suf h1)
  | rep r lo hi lz ihr =>
    intro L hL fl xs suf h
    simp only [litRuns] at hL
    exact Option.noConfusion hL
  | grp i r ihr =>
    intro L hL fl xs suf h
    simp only [litRuns] at hL
    exact ihr L hL fl xs suf (acceptsS_grp_inv h)
  | look r ihr =>
    intro L hL fl xs suf h
    simp only [litRuns] at hL
    exact Option.noConfusion hL
  | bol =>
    intro L hL fl xs suf h
    simp only [litRuns] at hL
    exact Option.noConfusion hL
  | eol =>
    intro L hL fl xs suf h
    simp only [litRuns] at hL
    exact Option.noConfusion hL

theorem litRunsAll_sound {needles : List (List Char)} {re : RE}
    (h : litRunsAll needles re = true) {fl : RFlags} {xs suf : List Char}
    (ha : AcceptsS fl re xs suf) :
    ∃ n ∈ needles, containsSub (xs.map jsLower) n = true := by
  unfold litRunsAll at h
  cases hL : litRuns re with
  | none => rw [hL] at h; exact Bool.noConfusion h
  | some L =>
    rw [hL] at h
    have hmem := litRuns_sound re L hL fl xs suf ha
    have hall : needles.any (fun n => containsSub (xs.map jsLower) n) = true :=
      List.all_eq_true.mp h _ hmem
    obtain ⟨n, hn, hc⟩ := List.any_eq_true.mp hall
    exact ⟨n, hn, hc⟩

theorem needsAny_sound (needles : List (List Char)) :
    ∀ (re : RE), needsAny needles re = true →
    ∀ (fl : RFlags) (xs suf : List Char), AcceptsS fl re xs suf →
      ∃ n ∈ needles, containsSub (xs.map jsLower) n = true := by
  intro re
  induction re with
  | eps =>
    intro h fl xs suf ha
    simp only [needsAny] at h
    exact litRunsAll_sound h ha
  | lit c =>
    intro h fl xs suf ha
    simp only [needsAny] at h
    exact litRunsAll_sound h ha
  | cls neg items =>
    intro h fl xs suf ha
    simp only [needsAny] at h
    exact litRunsAll_sound h ha
  | cat a b iha ihb =>
    intro h fl xs suf ha
    simp only [needsAny] at h
    cases hl : litRunsAll needles (RE.cat a b) with
    | true => exact litRunsAll_sound hl ha
    | false =>
      rw [hl] at h
      simp only [Bool.false_or, Bool.or_eq_true] at h
      obtain ⟨xs1, xs2, hxs, h1, h2⟩ := acceptsS_cat_inv ha
      rcases h with hna | hnb
      · obtain ⟨n, hn, hc⟩ := iha hna fl xs1 _ h1
        refine ⟨n, hn, ?_⟩
        rw [hxs, List.map_append]
        exact containsSub_append_left n _ _ hc
      · obtain ⟨n, hn, hc⟩ := ihb hnb fl xs2 _ h2
        refine ⟨n, hn, ?_⟩
        rw [hxs, List.map_append]
        exact containsSub_append_right n _ _ hc
  | alt a b iha ihb =>
    intro h fl xs suf ha
    simp only [needsAny] at h
    cases hl : litRunsAll needles (RE.alt a b) with
    | true => exact litRunsAll_sound hl ha
    | false =>
      rw [hl] at h
      simp only [Bool.false_or, Bool.and_eq_true] at h
      rcases acceptsS_alt_inv ha with h1 | h1
      · exact iha h.1 fl xs suf h1
      · exact ihb h.2 fl xs suf h1
  | rep r lo hi lz ihr =>
    intro h fl xs suf ha
    simp only [needsAny] at h
    exact litRunsAll_sound h ha
  | grp i r ihr =>
    intro h fl xs suf ha
    simp only [needsAny] at h
    exact ihr h fl xs suf (acceptsS_grp_inv ha)
  | look r ihr =>
    intro h fl xs suf ha
    simp only [needsAny] at h
    exact litRunsAll_sound h ha
  | bol =>
    intro h fl xs suf ha
    simp only [needsAny] at h
    exact litRunsAll_sound h ha
  | eol =>
    intro h fl xs suf ha
    simp only [needsAny] at h
    exact litRunsAll_sound h ha

theorem execAll_eq_nil (fl : RFlags) (re : RE) (cs : List Char)
    (h : ∀ (sk matched suf : List Char), cs = sk ++ matched ++ suf →
      AcceptsS fl re matched suf → False) :
    execAll fl re cs = [] := by
  unfold execAll
  simp only [execAllAux]
  cases hs : searchAux fl (mfuel cs.length) re cs none 0 with
  | none => rfl
  | some m =>
    obtain ⟨sk, suf, hdec, ha⟩ := searchAux_sound fl (mfuel cs.length) re cs none 0 m hs
    exact (h sk m.matched suf hdec ha).elim

theorem needsAny_execAll_nil (needles : List (List Char)) (fl : RFlags) (re : RE)
    (cs : List Char) (hre : needsAny needles re = true)
    (hno : ∀ n ∈ needles, containsSub (cs.map jsLower) n = false) :
    execAll fl re cs = [] := by
  apply execAll_eq_nil
  intro sk matched suf hcs ha
  obtain ⟨n, hn, hc⟩ := needsAny_sound needles re hre fl matched suf ha
  have h1 : containsSub ((sk ++ matched ++ suf).map jsLower) n = true := by
    rw [List.map_append, List.map_append, List.append_assoc]
    exact containsSub_append_right n _ _ (containsSub_append_left n _ _ hc)
  rw [← hcs, hno n hn] at h1
  exact Bool.noConfusion h1

theorem foldl_id_of_unit {α β : Type} :
    ∀ (l : List β) (F : α → β → α) (acc : α),
      (∀ b ∈ l, ∀ a, F a b = a) → l.foldl F acc = acc := by
  intro l
  induction l with
  | nil => intro F acc h; rfl
  | cons p t ih =>
    intro F acc h
    simp only [List.foldl_cons]
    rw [h p (List.mem_cons_self p t) acc]
    exact ih F acc (fun q hq => h q (List.mem_cons_of_mem p hq))

/-! ## Claim theorems -/

/-- C1 counterexample.  The claim says a populated caption or hashtag
list is never replaced by an empty one.  But when the incoming tuple has a
non-empty caption and an empty hashtag list, the guard at app.js:2397 passes
and `updateGalleryCardWithCaption` (app.js:2884-2887) overwrites *both*
fields, clearing the populated hashtag list. -/
theorem c1_counterexample :
    metaGet (GalleryState.mk ["/generated/a.png"]
        [("/generated/a.png", ⟨"Hello", ["#x"]⟩)]).generatedImagesMeta
      "/generated/a.png" = some ⟨"Hello", ["#x"]⟩ ∧
    metaGet (reconcilePair
        (GalleryState.mk ["/generated/a.png"]
          [("/generated/a.png", ⟨"Hello", ["#x"]⟩)])
        ⟨"/generated/a.png", "New", []⟩).generatedImagesMeta
      "/generated/a.png" = some ⟨"New", []⟩ := by
  constructor
  · rfl
  · rfl

/-- C1 amended.  Reconciling a tuple for an already-known `mediaRef`
skips the update only when *both* the incoming caption and the incoming
hashtag list are empty (in particular the spec's two-phase example
`{caption: "", hashtags: []}` leaves the stored fields unchanged); when
either incoming field is non-empty, *both* stored fields are overwritten
with the incoming values, so a populated field can be cleared by an empty
incoming one if the other incoming field is non-empty. -/
theorem c1_nondestructive_amended (st : GalleryState) (p : Pair)
    (hmem : st.generatedImages.contains p.image = true) :
    (p.caption = "" ∧ p.hashtags = [] → reconcilePair st p = st) ∧
    (∀ sp, (p.caption ≠ "" ∨ p.hashtags ≠ []) → sanitizeImagePath p.image = some sp →
      metaGet (reconcilePair st p).generatedImagesMeta sp =
        some ⟨p.caption, p.hashtags⟩) := by
  constructor
  · intro ⟨h1, h2⟩
    unfold reconcilePair
    rw [if_pos hmem, if_neg]
    simp [h1, h2]
  · intro sp hne hsan
    unfold reconcilePair
    rw [if_pos hmem, if_pos hne]
    unfold updateGalleryCardWithCaption
    rw [hsan]
    exact metaGet_metaSet _ _ _

/-- C1 witness for the amended theorem at the spec's own example. -/
theorem c1_witness :
    reconcilePair
        (GalleryState.mk ["/generated/a.png"]
          [("/generated/a.png", ⟨"Hello", ["#x"]⟩)])
        ⟨"/generated/a.png", "", []⟩ =
      GalleryState.mk ["/generated/a.png"]
        [("/generated/a.png", ⟨"Hello", ["#x"]⟩)] :=
  (c1_nondestructive_amended
    (GalleryState.mk ["/generated/a.png"] [("/generated/a.png", ⟨"Hello", ["#x"]⟩)])
    ⟨"/generated/a.png", "", []⟩ (by decide)).1 ⟨rfl, rfl⟩

/-- C2.  Reconciling the same extraction tuple twice yields the same
`generatedImages` count as reconciling it once: the second pass finds the
`mediaRef` already present (app.js:2392) and at most patches metadata, so no
second entry is created. -/
theorem c2_reconcile_idempotent_count (st : GalleryState) (p : Pair) :
    ((reconcilePair (reconcilePair st p) p).generatedImages).length =
      ((reconcilePair st p).generatedImages).length := by
  rw [reconcile_generatedImages_of_contains (reconcilePair st p) p
    (reconcile_contains st p)]

/-- C4.  On the carousel-complete scenario input, extraction yields
exactly three `ContentItem` tuples, each carrying the shared caption
`"Summer vibes"` and the same six-tag hashtag list. -/
theorem c4_carousel_scenario :
    extractImageCaptionPairs carouselText =
      [⟨"/generated/slide1.png", "Summer vibes",
         ["#sun", "#beach", "#fun", "#sea", "#sand", "#waves"]⟩,
       ⟨"/generated/slide2.png", "Summer vibes",
         ["#sun", "#beach", "#fun", "#sea", "#sand", "#waves"]⟩,
       ⟨"/generated/slide3.png", "Summer vibes",
         ["#sun", "#beach", "#fun", "#sea", "#sand", "#waves"]⟩] := by
  rfl

/-- C6.  The strategy chain short-circuits: whenever the labeled-post
(campaign) pattern yields at least one tuple, the extractor returns exactly
the campaign tuples, even if the generic proximity pattern also matches. -/
theorem c6_strategy_precedence (text : String)
    (h1 : campaignPostPairs text.data ≠ [])
    (_h2 : genericPairs text.data ≠ []) :
    extractImageCaptionPairs text = campaignPostPairs text.data := by
  unfold extractImageCaptionPairs
  have : (campaignPostPairs text.data).isEmpty = false := by
    simpa [List.isEmpty_iff] using h1
  simp [this]

/-- C6 witness: on `precedenceText` both strategies match, and the
extractor returns the campaign interpretation. -/
theorem c6_witness :
    extractImageCaptionPairs precedenceText = campaignPostPairs precedenceText.data ∧
    campaignPostPairs precedenceText.data =
      [⟨"/generated/post_a1.png", "Great day out", ["#fun", "#fun"]⟩] ∧
    genericPairs precedenceText.data =
      [⟨"/generated/post_a1.png", "Great day out", ["#fun", "#fun"]⟩] :=
  ⟨c6_strategy_precedence precedenceText (by decide) (by decide), by rfl, by rfl⟩

/-- C8.  On the truncated envelope, the pure-envelope strategy is not
applicable (the trimmed buffer does not end in a closing brace), the
embedded-simple and embedded-complex scans produce no candidate, the parser
yields no structured response, and the done-branch then runs the fallback
text choice detector on the raw buffer. -/
theorem c8_malformed_envelope :
    (parseStructuredResponse malformedBuf).isNone = true ∧
    firstSimpleEnvelope (matchAllStrings fN jsonSimpleRE malformedBuf.data) = none ∧
    firstComplexEnvelope (matchAllStrings fN jsonComplexRE malformedBuf.data) = none ∧
    (processStream [Frame.text malformedBuf, Frame.done]
        (initialAppState ⟨[], []⟩)).choiceDetectorRanOn = some malformedBuf := by
  refine ⟨by rfl, by rfl, by rfl, by rfl⟩

/-- C9.  If the frame stream ends (or is cut off by an abort) without a
`done` frame, no extraction runs and the gallery is exactly what it was:
`parseAssistantResponse` is only reachable from the `done` branch
(app.js:1644-1670). -/
theorem c9_no_done_no_extraction (frames : List Frame) (st : AppState)
    (h : Frame.done ∉ frames) :
    (processStream frames st).gallery = st.gallery ∧
    (processStream frames st).extractionRanOn = st.extractionRanOn := by
  induction frames generalizing st with
  | nil => exact ⟨rfl, rfl⟩
  | cons fr rest ih =>
    have hfr : fr ≠ Frame.done := fun he => h (he ▸ List.mem_cons_self fr rest)
    have hrest : Frame.done ∉ rest := fun he => h (List.mem_cons_of_mem fr he)
    have hstep : (stepFrame st fr).gallery = st.gallery ∧
        (stepFrame st fr).extractionRanOn = st.extractionRanOn := by
      cases fr with
      | session id => exact ⟨rfl, rfl⟩
      | text c => exact ⟨rfl, rfl⟩
      | done => exact absurd rfl hfr
      | malformed => exact ⟨rfl, rfl⟩
    have := ih (stepFrame st fr) hrest
    exact ⟨by rw [processStream] at *; rw [List.foldl_cons]; rw [this.1, hstep.1],
           by rw [processStream] at *; rw [List.foldl_cons]; rw [this.2, hstep.2]⟩

/-- C9 witness: an aborted stream (session and text frames only). -/
theorem c9_witness :
    (processStream [Frame.session "s1", Frame.text "look: /generated/w.png",
        Frame.malformed]
      (initialAppState ⟨["/generated/old.png"], []⟩)).gallery =
      ⟨["/generated/old.png"], []⟩ :=
  (c9_no_done_no_extraction _ _ (by decide)).1

/-! ### C5: hashtag list shape -/

/-- Everything the hashtag regex consumes is a hashtag token. -/
theorem hashtag_token_of_accepts {w suf : List Char}
    (h : AcceptsS fN hashtagRE w suf) : isHashtagToken (String.mk w) = true := by
  obtain ⟨x1, x23, hw, hlit, hrest⟩ := acceptsS_cat_inv h
  obtain ⟨d, hx1, hok⟩ := acceptsS_lit_inv hlit
  have hd : d = '#' := by simpa [litOk, fN] using hok
  obtain ⟨x2, x3, h23, hcls, hrep⟩ := acceptsS_cat_inv hrest
  obtain ⟨c, hx2, hcok⟩ := acceptsS_cls_inv hcls
  have hall : x3.all (clsMem false false azAZ09u) = true := by
    refine acceptsS_rep_all (RE.cls false azAZ09u) _ ?_ hrep
      ⟨0, none, false, rfl⟩
    intro xs suf2 hxs
    obtain ⟨e, hxe, heok⟩ := acceptsS_cls_inv hxs
    subst hxe
    simpa [fN] using heok
  subst hw h23 hx1 hx2 hd
  have hc2 : clsMem false false azAZ c = true := by simpa [fN] using hcok
  simp [isHashtagToken, hc2, hall]

theorem tokens_of_matchAll (s : List Char) :
    ∀ h ∈ ((matchAllStrings fN hashtagRE s).take 25).map String.mk,
      isHashtagToken h = true := by
  intro h hm
  obtain ⟨w, hw, rfl⟩ := List.mem_map.mp hm
  have hw2 : w ∈ matchAllStrings fN hashtagRE s := List.take_subset _ _ hw
  obtain ⟨suf, ha⟩ := matchAllStrings_sound fN hashtagRE s w hw2
  exact hashtag_token_of_accepts ha

theorem hashtagsOk_of_matchAll (img cap : String) (s : List Char) :
    hashtagsOk ⟨img, cap, ((matchAllStrings fN hashtagRE s).take 25).map String.mk⟩ := by
  constructor
  · rw [List.length_map, List.length_take]
    exact min_le_left _ _
  · exact tokens_of_matchAll s

/-- Fold steps that either keep the accumulator or append one element
satisfying `Q` only produce elements satisfying `Q` (beyond the initial
ones). -/
theorem mem_foldl_push {α β : Type} (f : List α → β → List α) (Q : α → Prop)
    (hf : ∀ acc x, f acc x = acc ∨ ∃ y, f acc x = acc ++ [y] ∧ Q y) :
    ∀ (l : List β) (init : List α) (p : α), p ∈ List.foldl f init l →
      p ∈ init ∨ Q p := by
  intro l
  induction l with
  | nil => intro init p hp; exact Or.inl hp
  | cons x xs ih =>
    intro init p hp
    rw [List.foldl_cons] at hp
    rcases ih (f init x) p hp with h | h
    · rcases hf init x with he | ⟨y, he, hq⟩
      · rw [he] at h; exact Or.inl h
      · rw [he] at h
        rcases List.mem_append.mp h with h2 | h2
        · exact Or.inl h2
        · simp only [List.mem_singleton] at h2
          subst h2
          exact Or.inr hq
    · exact Or.inr h

theorem pairStep_pushes (text : List Char) (win : Nat) :
    ∀ acc m, pairStep text win acc m = acc ∨
      ∃ y, pairStep text win acc m = acc ++ [y] ∧ hashtagsOk y := by
  intro acc m
  unfold pairStep
  by_cases hf : pairFound acc (String.mk (ensureSlash (grpStr m 1))) = true
  · left; rw [if_pos hf]
  · right
    exact ⟨_, by rw [if_neg hf], hashtagsOk_of_matchAll _ _ _⟩

theorem campaign_hashtagsOk (cs : List Char) :
    ∀ p ∈ campaignPostPairs cs, hashtagsOk p := by
  intro p hp
  rcases mem_foldl_push _ hashtagsOk (pairStep_pushes cs 1500) _ [] p hp with h | h
  · simp at h
  · exact h

theorem structured_hashtagsOk (cs : List Char) :
    ∀ p ∈ structuredPairs cs, hashtagsOk p := by
  intro p hp
  rcases mem_foldl_push _ hashtagsOk (pairStep_pushes cs 1000) _ [] p hp with h | h
  · simp at h
  · exact h

theorem singlePost_hashtagsOk (cs : List Char) :
    ∀ p ∈ singlePostPairs cs, hashtagsOk p := by
  intro p hp
  rcases mem_foldl_push _ hashtagsOk (pairStep_pushes cs 1000) _ [] p hp with h | h
  · simp at h
  · exact h

theorem generic_hashtagsOk (cs : List Char) :
    ∀ p ∈ genericPairs cs, hashtagsOk p := by
  intro p hp
  rcases mem_foldl_push _ hashtagsOk (pairStep_pushes cs 500) _ [] p hp with h | h
  · simp at h
  · exact h

theorem carousel_hashtagsOk (cs : List Char) :
    ∀ p ∈ carouselCompletePairs cs, hashtagsOk p := by
  intro p hp
  unfold carouselCompletePairs at hp
  by_cases hc : isCarouselComplete cs = true
  · rw [if_pos hc] at hp
    have hstep : ∀ acc x, (fun pairs imagePath =>
        if pairFound pairs (String.mk imagePath) = true then pairs
        else pairs ++ [⟨String.mk imagePath,
          String.mk (match matchFirst fI carouselCaptionRE cs with
            | some m => (replaceAll fN boldRE [] (jsTrim (grpStr m 1))).take 800
            | none => []),
          ((matchAllStrings fN hashtagRE cs).take 25).map String.mk⟩]) acc x = acc ∨
        ∃ y, (fun pairs imagePath =>
          if pairFound pairs (String.mk imagePath) = true then pairs
          else pairs ++ [⟨String.mk imagePath,
            String.mk (match matchFirst fI carouselCaptionRE cs with
              | some m => (replaceAll fN boldRE [] (jsTrim (grpStr m 1))).take 800
              | none => []),
            ((matchAllStrings fN hashtagRE cs).take 25).map String.mk⟩]) acc x =
          acc ++ [y] ∧ hashtagsOk y := by
      intro acc x
      by_cases hf : pairFound acc (String.mk x) = true
      · left; simp only [if_pos hf]
      · right
        exact ⟨_, by simp only [if_neg hf]; rfl, hashtagsOk_of_matchAll _ _ _⟩
    rcases mem_foldl_push _ hashtagsOk hstep _ [] p hp with h | h
    · simp at h
    · exact h
  · rw [if_neg hc] at hp
    simp at hp

theorem slide_hashtagsOk (cs : List Char) :
    ∀ p ∈ carouselSlidePairs cs, hashtagsOk p := by
  intro p hp
  unfold carouselSlidePairs at hp
  have hstep : ∀ acc m, (fun pairs (m : MatchRes) =>
      if pairFound pairs (String.mk (ensureSlash (grpStr m 3))) = true then pairs
      else pairs ++ [⟨String.mk (ensureSlash (grpStr m 3)),
        String.mk (match matchFirst fI thisSlideRE ((cs.drop m.idx).take 500) with
          | some dm => dm.matched
          | none => []), []⟩]) acc m = acc ∨
      ∃ y, (fun pairs (m : MatchRes) =>
        if pairFound pairs (String.mk (ensureSlash (grpStr m 3))) = true then pairs
        else pairs ++ [⟨String.mk (ensureSlash (grpStr m 3)),
          String.mk (match matchFirst fI thisSlideRE ((cs.drop m.idx).take 500) with
            | some dm => dm.matched
            | none => []), []⟩]) acc m = acc ++ [y] ∧ hashtagsOk y := by
    intro acc m
    by_cases hf : pairFound acc (String.mk (ensureSlash (grpStr m 3))) = true
    · left; simp only [if_pos hf]
    · right
      refine ⟨_, by simp only [if_neg hf]; rfl, ?_, ?_⟩
      · simp
      · intro h hh; simp at hh
  rcases mem_foldl_push _ hashtagsOk hstep _ [] p hp with h | h
  · simp at h
  · exact h

theorem extract_hashtagsOk (text : String) :
    ∀ p ∈ extractImageCaptionPairs text, hashtagsOk p := by
  intro p hp
  unfold extractImageCaptionPairs at hp
  by_cases h1 : (campaignPostPairs text.data).isEmpty = true
  · simp only [h1, if_true] at hp
    by_cases h2 : (carouselCompletePairs text.data).isEmpty = true
    · simp only [h2, if_true] at hp
      by_cases h3 : (carouselSlidePairs text.data).isEmpty = true
      · simp only [h3, if_true] at hp
        by_cases h4 : (structuredPairs text.data).isEmpty = true
        · simp only [h4, if_true] at hp
          by_cases h5 : (singlePostPairs text.data).isEmpty = true
          · simp only [h5, if_true] at hp
            exact generic_hashtagsOk text.data p hp
          · simp [h5] at hp
            exact singlePost_hashtagsOk text.data p hp
        · simp [h4] at hp
          exact structured_hashtagsOk text.data p hp
      · simp [h3] at hp
        exact slide_hashtagsOk text.data p hp
    · simp [h2] at hp
      exact carousel_hashtagsOk text.data p hp
  · simp [h1] at hp
    exact campaign_hashtagsOk text.data p hp

theorem metaGet_mapUpd (mm : List (String × Meta)) (k k2 : String) (v w : Meta)
    (h : metaGet (mm.map (fun p => if p.1 = k then (k, v) else p)) k2 = some w) :
    w = v ∨ metaGet mm k2 = some w := by
  induction mm with
  | nil => simp [metaGet] at h
  | cons hd tl ih =>
    unfold metaGet at h ih ⊢
    simp only [List.map_cons, List.find?_cons] at h ⊢
    by_cases hk : hd.1 = k
    · rw [if_pos hk] at h
      by_cases hkk : k = k2
      · have : (decide ((k, v).1 = k2)) = true := by simp [hkk]
        rw [this] at h
        simp at h
        exact Or.inl h.symm
      · have h1 : (decide ((k, v).1 = k2)) = false := by simp [hkk]
        have h2 : (decide (hd.1 = k2)) = false := by simp [hk, hkk]
        rw [h1] at h
        rw [h2]
        exact ih h
    · rw [if_neg hk] at h
      by_cases hd2 : hd.1 = k2
      · have : (decide (hd.1 = k2)) = true := by simp [hd2]
        rw [this] at h ⊢
        exact Or.inr h
      · have : (decide (hd.1 = k2)) = false := by simp [hd2]
        rw [this] at h ⊢
        exact ih h

theorem metaOk_metaSet (mm : List (String × Meta)) (k : String) (v : Meta)
    (hmm : ∀ k2 m, metaGet mm k2 = some m → metaOk m) (hv : metaOk v) :
    ∀ k2 m, metaGet (metaSet mm k v) k2 = some m → metaOk m := by
  intro k2 m h
  unfold metaSet at h
  by_cases hf : (mm.find? (fun p => p.1 = k)).isSome = true
  · rw [if_pos hf] at h
    rcases metaGet_mapUpd mm k k2 v m h with rfl | h2
    · exact hv
    · exact hmm _ _ h2
  · rw [if_neg hf] at h
    unfold metaGet at h
    rw [List.find?_append] at h
    cases hfind : mm.find? (fun p => p.1 = k2) with
    | some x =>
      rw [hfind] at h
      simp at h
      subst h
      exact hmm k2 x.2 (by unfold metaGet; rw [hfind]; rfl)
    | none =>
      rw [hfind] at h
      by_cases hkk : k = k2
      · simp [List.find?_cons, hkk] at h
        subst h
        exact hv
      · simp [List.find?_cons, hkk] at h

theorem stateOk_addWithCaption (st : GalleryState) (ip cap : String)
    (tags : List String) (hst : stateOk st) (hv : metaOk ⟨cap, tags⟩) :
    stateOk (addImageToGalleryWithCaption st ip cap tags) := by
  unfold addImageToGalleryWithCaption
  cases sanitizeImagePath ip with
  | none => exact hst
  | some sp => exact metaOk_metaSet _ _ _ hst hv

theorem stateOk_updateCard (st : GalleryState) (ip cap : String)
    (tags : List String) (hst : stateOk st) (hv : metaOk ⟨cap, tags⟩) :
    stateOk (updateGalleryCardWithCaption st ip cap tags) := by
  unfold updateGalleryCardWithCaption
  cases sanitizeImagePath ip with
  | none => exact hst
  | some sp => exact metaOk_metaSet _ _ _ hst hv

theorem stateOk_addVideoWithCaption (st : GalleryState) (vp cap : String)
    (tags : List String) (hst : stateOk st) (hv : metaOk ⟨cap, tags⟩) :
    stateOk (addVideoToGalleryWithCaption st vp cap tags) := by
  unfold addVideoToGalleryWithCaption
  cases sanitizeImagePath vp with
  | none => exact hst
  | some sp => exact metaOk_metaSet _ _ _ hst hv

theorem stateOk_addImage (st : GalleryState) (ip : String) (hst : stateOk st) :
    stateOk (addImageToGallery st ip) := by
  unfold addImageToGallery
  cases sanitizeImagePath ip with
  | none => exact hst
  | some sp => exact hst

theorem stateOk_push (st : GalleryState) (l : List String) (hst : stateOk st) :
    stateOk { st with generatedImages := l } :=
  fun k m h => hst k m h

theorem stateOk_reconcilePair (st : GalleryState) (p : Pair)
    (hst : stateOk st) (hp : hashtagsOk p) : stateOk (reconcilePair st p) := by
  unfold reconcilePair
  by_cases hc : st.generatedImages.contains p.image = true
  · rw [if_pos hc]
    by_cases h2 : p.caption ≠ "" ∨ p.hashtags ≠ []
    · rw [if_pos h2]
      exact stateOk_updateCard st _ _ _ hst ⟨hp.1, hp.2⟩
    · rw [if_neg h2]; exact hst
  · rw [if_neg hc]
    exact stateOk_addWithCaption _ _ _ _ (stateOk_push st _ hst) ⟨hp.1, hp.2⟩

theorem stateOk_foldl_reconcilePair (pairs : List Pair) :
    ∀ (st : GalleryState), stateOk st → (∀ p ∈ pairs, hashtagsOk p) →
      stateOk (pairs.foldl reconcilePair st) := by
  induction pairs with
  | nil => intro st hst _; exact hst
  | cons p rest ih =>
    intro st hst hall
    rw [List.foldl_cons]
    exact ih _ (stateOk_reconcilePair st p hst (hall p (List.mem_cons_self p rest)))
      (fun q hq => hall q (List.mem_cons_of_mem p hq))

theorem stateOk_reconcileFallbackImg (text : List Char) (st : GalleryState)
    (imgPath : List Char) (hst : stateOk st) :
    stateOk (reconcileFallbackImg text st imgPath) := by
  unfold reconcileFallbackImg
  by_cases hc : st.generatedImages.contains (String.mk imgPath) = true
  · rw [if_pos hc]; exact hst
  · rw [if_neg hc]
    have hst2 := stateOk_push st (st.generatedImages ++ [String.mk imgPath]) hst
    by_cases h2 : String.mk (fallbackCaption text) ≠ "" ∨
        ((matchAllStrings fN hashtagRE text).take 25).map String.mk ≠ []
    · rw [if_pos h2]
      refine stateOk_addWithCaption _ _ _ _ hst2 ⟨?_, tokens_of_matchAll text⟩
      rw [List.length_map, List.length_take]
      exact min_le_left _ _
    · rw [if_neg h2]
      exact stateOk_addImage _ _ hst2

theorem stateOk_foldl_fallback (text : List Char) (imgs : List (List Char)) :
    ∀ (st : GalleryState), stateOk st →
      stateOk (imgs.foldl (reconcileFallbackImg text) st) := by
  induction imgs with
  | nil => intro st hst; exact hst
  | cons x rest ih =>
    intro st hst
    rw [List.foldl_cons]
    exact ih _ (stateOk_reconcileFallbackImg text st x hst)

theorem stateOk_reconcileVideo (st : GalleryState) (vp : String)
    (hst : stateOk st) : stateOk (reconcileVideo st vp) := by
  unfold reconcileVideo
  by_cases hc : st.generatedImages.contains vp = true
  · rw [if_pos hc]; exact hst
  · rw [if_neg hc]
    have hst2 := stateOk_push st (st.generatedImages ++ [vp]) hst
    cases hli : (({ st with generatedImages := st.generatedImages ++ [vp] } :
        GalleryState).generatedImages.filter
          (fun p => testRe fI stillImageEndRE p.data)).getLast? with
    | none =>
      simp only [hli]
      exact stateOk_addImage _ _ hst2
    | some li =>
      simp only [hli]
      cases hmg : metaGet ({ st with generatedImages := st.generatedImages ++ [vp] } :
          GalleryState).generatedImagesMeta li with
      | none =>
        simp only [hmg]
        exact stateOk_addImage _ _ hst2
      | some m2 =>
        simp only [hmg]
        have hm2 : metaOk m2 := hst2 li m2 hmg
        by_cases h2 : m2.caption ≠ "" ∨ m2.hashtags ≠ []
        · rw [if_pos h2]
          exact stateOk_addVideoWithCaption _ _ _ _ hst2 hm2
        · rw [if_neg h2]
          exact stateOk_addImage _ _ hst2

theorem stateOk_videoScan (st : GalleryState) (text : List Char)
    (hst : stateOk st) : stateOk (videoScan st text) := by
  unfold videoScan
  generalize ((matchAllStrings fI videoRE text).map
    (fun p => String.mk (ensureSlash p))) = videos
  induction videos generalizing st with
  | nil => exact hst
  | cons v rest ih =>
    rw [List.foldl_cons]
    exact ih _ (stateOk_reconcileVideo st v hst)

theorem stateOk_parseAssistantResponse (st : GalleryState) (text : String)
    (hst : stateOk st) : stateOk (parseAssistantResponse st text) := by
  unfold parseAssistantResponse
  apply stateOk_videoScan
  by_cases hp : (extractImageCaptionPairs text).length > 0
  · rw [if_pos hp]
    exact stateOk_foldl_reconcilePair _ st hst (extract_hashtagsOk text)
  · rw [if_neg hp]
    exact stateOk_foldl_fallback _ _ st hst

/-- C5 counterexample.  Duplicate hashtags are *not* removed: the
campaign extractor stores the raw regex matches (`.slice(0, 25)` only,
app.js:2546/2552), so a `Hashtags: #fun #fun` section yields the duplicated
list `["#fun", "#fun"]`. -/
theorem c5_counterexample :
    extractImageCaptionPairs precedenceText =
      [⟨"/generated/post_a1.png", "Great day out", ["#fun", "#fun"]⟩] ∧
    ∃ p ∈ extractImageCaptionPairs precedenceText, ¬ p.hashtags.Nodup := by
  exact ⟨by rfl, by decide⟩

/-- C5 amended.  Every hashtag list stored by extraction — whether in a
strategy tuple of `extractImageCaptionPairs`, via the no-pairing fallback
scan, or inherited by a video from a previously stored item — is an ordered
sequence of at most 25 tokens, each matching `#[A-Za-z][A-Za-z0-9_]*`, in
regex-match (text) order; duplicate tags are *retained*, not removed.
Stated as: every extracted tuple satisfies the shape, and one full
`parseAssistantResponse` pass preserves the shape of all stored metadata
(video inheritance copies lists that were themselves stored this way). -/
theorem c5_hashtags_amended (text : String) (st : GalleryState)
    (hst : ∀ k m, metaGet st.generatedImagesMeta k = some m →
      m.hashtags.length ≤ 25 ∧ ∀ h ∈ m.hashtags, isHashtagToken h = true) :
    (∀ p ∈ extractImageCaptionPairs text,
      p.hashtags.length ≤ 25 ∧ ∀ h ∈ p.hashtags, isHashtagToken h = true) ∧
    (∀ k m,
      metaGet (parseAssistantResponse st text).generatedImagesMeta k = some m →
      m.hashtags.length ≤ 25 ∧ ∀ h ∈ m.hashtags, isHashtagToken h = true) :=
  ⟨extract_hashtagsOk text, stateOk_parseAssistantResponse st text hst⟩

/-- C5 witness at the duplicated-hashtag input, reconciled from the empty
gallery: the stored metadata entry is exactly the duplicated 25-capped
token list, and it satisfies the amended shape. -/
theorem c5_witness :
    metaGet (parseAssistantResponse (GalleryState.mk [] [])
        precedenceText).generatedImagesMeta "/generated/post_a1.png" =
      some ⟨"Great day out", ["#fun", "#fun"]⟩ ∧
    ((Meta.mk "Great day out" ["#fun", "#fun"]).hashtags.length ≤ 25 ∧
      ∀ h ∈ (Meta.mk "Great day out" ["#fun", "#fun"]).hashtags,
        isHashtagToken h = true) :=
  ⟨by rfl,
   (c5_hashtags_amended precedenceText (GalleryState.mk [] [])
      (fun k m h => by simp [metaGet] at h)).2
     "/generated/post_a1.png" ⟨"Great day out", ["#fun", "#fun"]⟩ (by rfl)⟩

/-! ### C3: choice bounds and dedup -/

theorem choiceInv_push (sc : List String × List Choice) (c : Choice)
    (h : choiceInv sc) : choiceInv (pushChoice sc c) := by
  unfold pushChoice
  by_cases hc : sc.1.contains (lowerStr c.label) = true
  · rw [if_pos hc]; exact h
  · rw [if_neg hc]
    have hnotseen : lowerStr c.label ∉ sc.1 := by
      intro hmem
      exact hc (by simpa using hmem)
    have hnotlab : lowerStr c.label ∉ sc.2.map (fun c => lowerStr c.label) := by
      intro hmem
      exact hnotseen (h.2 _ hmem)
    constructor
    · simp only [List.map_append, List.map_cons, List.map_nil]
      simp [List.nodup_append, h.1]
      intro x hx he
      exact hnotlab (List.mem_map.mpr ⟨x, hx, he⟩)
    · intro l hl
      simp only [List.map_append, List.map_cons, List.map_nil] at hl
      rcases List.mem_append.mp hl with h2 | h2
      · exact List.mem_append_left _ (h.2 _ h2)
      · simp only [List.mem_singleton] at h2
        subst h2
        exact List.mem_append_right _ (by simp)

theorem choiceInv_foldl {β : Type}
    (f : List String × List Choice → β → List String × List Choice)
    (hf : ∀ sc x, choiceInv sc → choiceInv (f sc x)) :
    ∀ (l : List β) (sc : List String × List Choice),
      choiceInv sc → choiceInv (List.foldl f sc l) := by
  intro l
  induction l with
  | nil => intro sc h; exact h
  | cons x xs ih =>
    intro sc h
    rw [List.foldl_cons]
    exact ih _ (hf sc x h)

theorem choiceInv_p1a (sc : List String × List Choice) (m : MatchRes)
    (h : choiceInv sc) : choiceInv (p1aStep sc m) :=
  choiceInv_push _ _ h

theorem choiceInv_p1b (sc : List String × List Choice) (m : MatchRes)
    (h : choiceInv sc) : choiceInv (p1bStep sc m) :=
  choiceInv_push _ _ h

theorem choiceInv_p2 (sc : List String × List Choice) (m : MatchRes)
    (h : choiceInv sc) : choiceInv (p2Step sc m) := by
  unfold p2Step
  refine choiceInv_foldl _ ?_ _ sc h
  intro sc2 opt h2
  by_cases hne : String.mk (replaceAll fN boldRE [] (jsTrim opt)) ≠ ""
  · rw [if_pos hne]; exact choiceInv_push _ _ h2
  · rw [if_neg hne]; exact h2

theorem choiceInv_p4 (sc : List String × List Choice) (m : MatchRes)
    (h : choiceInv sc) : choiceInv (p4Step sc m) := by
  unfold p4Step
  refine choiceInv_foldl _ ?_ _ sc h
  intro sc2 bm h2
  by_cases hne : String.mk (jsTrim (replaceFirst fN dashTailRE []
      (jsTrim (grpStr bm 1)))) ≠ "" ∧
    (String.mk (jsTrim (replaceFirst fN dashTailRE []
      (jsTrim (grpStr bm 1))))).length < 50
  · rw [if_pos hne]; exact choiceInv_push _ _ h2
  · rw [if_neg hne]; exact h2

theorem detectCandidates_nodup (text : String) :
    ((detectCandidates text).map (fun c => lowerStr c.label)).Nodup := by
  unfold detectCandidates
  have h0 : choiceInv ([], []) := ⟨List.nodup_nil, by simp⟩
  have h1 := choiceInv_foldl _ choiceInv_p1a (execAll fN emojiOutsideRE text.data) _ h0
  have h2 := choiceInv_foldl _ choiceInv_p1b (execAll fN emojiInsideRE text.data) _ h1
  have h3 := choiceInv_foldl _ choiceInv_p2 (execAll fN inlineChoiceRE text.data) _ h2
  have h4 := choiceInv_foldl _ choiceInv_p4 (execAll fI bulletOptionsRE text.data) _ h3
  exact h4.1

/-- C3.  The detector returns either `[]` or the accumulated candidate
list itself: when the deduplicated candidate count is 0, 1 or more than 8
the result is empty, when it is between 2 and 8 the result is exactly those
candidates, and the returned labels are pairwise distinct
case-insensitively. -/
theorem c3_choice_bounds (text : String) :
    (((detectChoicesInMessage text).map (fun c => lowerStr c.label)).Nodup) ∧
    ((detectCandidates text).length < 2 ∨ 8 < (detectCandidates text).length →
      detectChoicesInMessage text = []) ∧
    (2 ≤ (detectCandidates text).length → (detectCandidates text).length ≤ 8 →
      detectChoicesInMessage text = detectCandidates text) := by
  refine ⟨?_, ?_, ?_⟩
  · unfold detectChoicesInMessage
    by_cases h : 2 ≤ (detectCandidates text).length ∧ (detectCandidates text).length ≤ 8
    · rw [if_pos h]; exact detectCandidates_nodup text
    · rw [if_neg h]; exact List.nodup_nil
  · intro h
    unfold detectChoicesInMessage
    rw [if_neg]
    intro ⟨h1, h2⟩
    rcases h with h | h <;> omega
  · intro h1 h2
    unfold detectChoicesInMessage
    rw [if_pos ⟨h1, h2⟩]

/-- C3 witness at a two-candidate input. -/
theorem c3_witness :
    detectChoicesInMessage "Pick one (yes / no)" =
      detectCandidates "Pick one (yes / no)" :=
  (c3_choice_bounds "Pick one (yes / no)").2.2 (by decide) (by decide)

/-! ### C7: the media reference grammar -/

theorem acceptsS_litList {fl : RFlags} :
    ∀ (l : List Char) {xs suf : List Char},
      AcceptsS fl (rcats (l.map RE.lit)) xs suf →
      xs.map jsLower = l.map jsLower := by
  intro l
  induction l with
  | nil =>
    intro xs suf h
    have := acceptsS_eps_inv h
    simp [this]
  | cons c rest ih =>
    cases rest with
    | nil =>
      intro xs suf h
      obtain ⟨d, hx, hok⟩ := acceptsS_lit_inv h
      subst hx
      simp [litOk_lower hok]
    | cons c2 rest2 =>
      intro xs suf h
      obtain ⟨x1, x2, hxx, h1, h2⟩ := acceptsS_cat_inv h
      obtain ⟨d, hx1, hok⟩ := acceptsS_lit_inv h1
      subst hxx hx1
      simp [litOk_lower hok, ih h2]

theorem eolOk_fI {suf : List Char} (h : eolOk fI suf = true) : suf = [] := by
  cases suf with
  | nil => rfl
  | cons c t => simp [eolOk, fI] at h

theorem mediaExtAlts_inv {xs suf : List Char}
    (h : AcceptsS fI mediaExtAlts xs suf) :
    ∃ e ∈ mediaExts, xs.map jsLower = e.data := by
  unfold mediaExtAlts at h
  rcases acceptsS_alt_inv h with h | h
  · exact ⟨"png", by decide, (acceptsS_litList _ h).trans (by decide)⟩
  rcases acceptsS_alt_inv h with h | h
  · exact ⟨"jpg", by decide, (acceptsS_litList _ h).trans (by decide)⟩
  rcases acceptsS_alt_inv h with h | h
  · exact ⟨"jpeg", by decide, (acceptsS_litList _ h).trans (by decide)⟩
  rcases acceptsS_alt_inv h with h | h
  · exact ⟨"gif", by decide, (acceptsS_litList _ h).trans (by decide)⟩
  rcases acceptsS_alt_inv h with h | h
  · exact ⟨"webp", by decide, (acceptsS_litList _ h).trans (by decide)⟩
  rcases acceptsS_alt_inv h with h | h
  · exact ⟨"mp4", by decide, (acceptsS_litList _ h).trans (by decide)⟩
  rcases acceptsS_alt_inv h with h | h
  · exact ⟨"webm", by decide, (acceptsS_litList _ h).trans (by decide)⟩
  · exact ⟨"mov", by decide, (acceptsS_litList _ h).trans (by decide)⟩

/-- Passing the final-validation regex means the (lower-cased) path ends in
a dot followed by an allow-listed extension. -/
theorem extOk_of_testRe {cs : List Char} (h : testRe fI sanExtEndRE cs = true) :
    ∃ e ∈ mediaExts, ∃ t, cs.map jsLower = t ++ '.' :: e.data := by
  unfold testRe at h
  cases hm : matchFirst fI sanExtEndRE cs with
  | none => rw [hm] at h; simp at h
  | some m =>
    obtain ⟨skipped, suf, hsplit, ha⟩ := matchFirst_sound fI sanExtEndRE cs m hm
    obtain ⟨x1, x23, hxx, h1, h2⟩ := acceptsS_cat_inv ha
    obtain ⟨d, hx1, hok⟩ := acceptsS_lit_inv h1
    obtain ⟨x2, x3, h23, hg, he⟩ := acceptsS_cat_inv h2
    obtain ⟨hx3, heol⟩ := acceptsS_eol_inv he
    have hsuf : suf = [] := eolOk_fI heol
    obtain ⟨e, hem, hxe⟩ := mediaExtAlts_inv (acceptsS_grp_inv hg)
    have hd : jsLower d = '.' := (litOk_lower hok).trans (by decide)
    refine ⟨e, hem, skipped.map jsLower, ?_⟩
    rw [hsplit, hxx, hsuf, hx1, h23, hx3]
    simp [hd, hxe]

/-- C7 counterexample.  The final validation regex carries the `i`
flag (app.js:3502), so an upper-case extension is accepted:
`"/generated/a.PNG"` is returned unchanged although `PNG` is not in the
grammar's extension set read literally. -/
theorem c7_counterexample :
    sanitizeImagePath "/generated/a.PNG" = some "/generated/a.PNG" ∧
    specMediaExtOk "/generated/a.PNG" = false := by
  exact ⟨by rfl, by rfl⟩

/-- C7 amended.  The normalizer returns `null` or a path that starts
with `/generated/` and ends in a dot plus an allow-listed extension compared
*case-insensitively* (so `.PNG` etc. are also accepted); the `<token>` part
is not otherwise constrained.  Rejection is local: the function returns
`null` rather than failing. -/
theorem c7_sanitize_amended (s p : String) (h : sanitizeImagePath s = some p) :
    ("/generated/".data).isPrefixOf p.data = true ∧
    ∃ e ∈ mediaExts, ∃ t, p.data.map jsLower = t ++ '.' :: e.data := by
  unfold sanitizeImagePath at h
  by_cases hs : s = ""
  · rw [if_pos hs] at h; simp at h
  · rw [if_neg hs] at h
    by_cases hc : (("/generated/".data).isPrefixOf (sanitizeCore s) &&
        testRe fI sanExtEndRE (sanitizeCore s)) = true
    · rw [if_pos hc] at h
      simp only [Bool.and_eq_true] at hc
      cases h
      exact ⟨hc.1, extOk_of_testRe hc.2⟩
    · rw [if_neg hc] at h; simp at h

/-- C7 witness at a well-formed reference. -/
theorem c7_witness :
    ("/generated/".data).isPrefixOf ("/generated/ok.png" : String).data = true ∧
    ∃ e ∈ mediaExts, ∃ t,
      ("/generated/ok.png" : String).data.map jsLower = t ++ '.' :: e.data :=
  c7_sanitize_amended "/generated/ok.png" "/generated/ok.png" (by rfl)

/-- C10.  The fallback extractor only recognizes `.png` still images (and
`.mp4`/`.webm`/`.mov` videos): for EVERY response text containing no `.png`
and no video-extension occurrence — compared case-insensitively, so in
particular texts whose only references end in `.jpg`/`.jpeg`/`.gif`/`.webp` —
extraction produces no tuples, the no-pairing fallback collects no images,
and `parseAssistantResponse` leaves any prior gallery state unchanged, even
though `sanitizeImagePath` accepts those four extensions. -/
theorem c10_nonpng_ignored (text : String) (st : GalleryState)
    (hpng : containsSub (text.data.map jsLower) (".png".data) = false)
    (hmp4 : containsSub (text.data.map jsLower) (".mp4".data) = false)
    (hwebm : containsSub (text.data.map jsLower) (".webm".data) = false)
    (hmov : containsSub (text.data.map jsLower) (".mov".data) = false) :
    (extractImageCaptionPairs text = [] ∧ fallbackImages text.data = [] ∧
      parseAssistantResponse st text = st) ∧
    (sanitizeImagePath "/generated/a.jpg" = some "/generated/a.jpg" ∧
      sanitizeImagePath "/generated/a.jpeg" = some "/generated/a.jpeg" ∧
      sanitizeImagePath "/generated/a.gif" = some "/generated/a.gif" ∧
      sanitizeImagePath "/generated/a.webp" = some "/generated/a.webp") := by
  have hno1 : ∀ n ∈ pngNeedles, containsSub (text.data.map jsLower) n = false := by
    intro n hn
    simp only [pngNeedles, List.mem_singleton] at hn
    rw [hn]
    exact hpng
  have hnoV : ∀ n ∈ vidNeedles, containsSub (text.data.map jsLower) n = false := by
    intro n hn
    simp only [vidNeedles, List.mem_cons, List.not_mem_nil, or_false] at hn
    rcases hn with hn | hn | hn
    · rw [hn]; exact hmp4
    · rw [hn]; exact hwebm
    · rw [hn]; exact hmov
  have hE : ∀ (fl2 : RFlags) (re : RE), needsAny pngNeedles re = true →
      execAll fl2 re text.data = [] := fun fl2 re hr =>
    needsAny_execAll_nil pngNeedles fl2 re text.data hr hno1
  have hcp : campaignPostPairs text.data = [] := by
    unfold campaignPostPairs
    rw [hE fI campaignPostRE (by decide)]
    rfl
  have hfi : carouselFoundImages text.data = [] := by
    unfold carouselFoundImages
    apply foldl_id_of_unit
    intro pat hpat a
    have hpe : execAll fI pat text.data = [] := by
      simp only [carouselImagePats, List.mem_cons, List.not_mem_nil, or_false] at hpat
      rcases hpat with h1 | h1 | h1 | h1 | h1 <;> rw [h1]
      · exact hE fI carImgRE0 (by decide)
      · exact hE fI carImgRE1 (by decide)
      · exact hE fI carImgRE2 (by decide)
      · exact hE fI carImgRE3 (by decide)
      · exact hE fI carImgRE4 (by decide)
    rw [hpe]
    rfl
  have hcc : carouselCompletePairs text.data = [] := by
    unfold carouselCompletePairs
    cases hic : isCarouselComplete text.data with
    | false => simp [hic]
    | true => simp [hic, hfi]
  have hcsl : carouselSlidePairs text.data = [] := by
    unfold carouselSlidePairs
    rw [hE fI carouselSlideRE (by decide)]
    rfl
  have hstp : structuredPairs text.data = [] := by
    unfold structuredPairs
    rw [hE fI structuredRE (by decide)]
    rfl
  have hsgp : singlePostPairs text.data = [] := by
    unfold singlePostPairs
    rw [hE fI singlePostRE (by decide)]
    rfl
  have hgnp : genericPairs text.data = [] := by
    unfold genericPairs
    rw [hE fI genericRE (by decide)]
    rfl
  have hex : extractImageCaptionPairs text = [] := by
    simp [extractImageCaptionPairs, hcp, hcc, hcsl, hstp, hsgp, hgnp]
  have hfb : fallbackImages text.data = [] := by
    unfold fallbackImages
    apply foldl_id_of_unit
    intro flp hflp a
    have hpe : execAll flp.1 flp.2 text.data = [] := by
      simp only [fallbackREs, List.mem_cons, List.not_mem_nil, or_false] at hflp
      rcases hflp with h1 | h1 | h1 | h1 | h1 | h1 | h1 | h1 | h1 <;> rw [h1] <;>
        exact hE _ _ (by decide)
    have hms : matchAllStrings flp.1 flp.2 text.data = [] := by
      unfold matchAllStrings
      rw [hpe]
      rfl
    rw [hms]
    rfl
  have hvs : ∀ s : GalleryState, videoScan s text.data = s := by
    intro s
    unfold videoScan
    have hms : matchAllStrings fI videoRE text.data = [] := by
      unfold matchAllStrings
      rw [needsAny_execAll_nil vidNeedles fI videoRE text.data (by decide) hnoV]
      rfl
    rw [hms]
    rfl
  have hpar : parseAssistantResponse st text = st := by
    unfold parseAssistantResponse
    simp only [hex, hfb, List.foldl_nil, ite_self]
    exact hvs st
  exact ⟨⟨hex, hfb, hpar⟩, by rfl, by rfl, by rfl, by rfl⟩

/-- C10 witness: a concrete text whose only media references use the four
non-png extensions leaves the empty gallery untouched, while the normalizer
accepts those references. -/
theorem c10_witness :
    (extractImageCaptionPairs c10Text = [] ∧ fallbackImages c10Text.data = [] ∧
      parseAssistantResponse (GalleryState.mk [] []) c10Text = GalleryState.mk [] []) ∧
    (sanitizeImagePath "/generated/a.jpg" = some "/generated/a.jpg" ∧
      sanitizeImagePath "/generated/a.jpeg" = some "/generated/a.jpeg" ∧
      sanitizeImagePath "/generated/a.gif" = some "/generated/a.gif" ∧
      sanitizeImagePath "/generated/a.webp" = some "/generated/a.webp") :=
  c10_nonpng_ignored c10Text (GalleryState.mk [] []) (by decide) (by decide)
    (by decide) (by decide)

end MVA
